import Mathlib

/-!
Verification of the quiz-generation core of `game.py` (class `OllamaStoryQuizGame`
and its helpers) against its natural-language specification.

Modelling conventions, chosen once and used throughout:

* Text is modelled as `Str := List Char`.  Python string operations
  (`strip`, `split`, `lower`, `title`, slicing, `in`-containment,
  `re`-patterns used by the source) are translated as executable functions
  on `List Char`.  Character classes (`\s`, `\w`, `str.isspace`, `str.lower`)
  are modelled over their ASCII meaning, which is the fragment the program's
  own literals exercise.
* The optional spaCy backend is absent in the model (`nlp = None` in the
  source's fallback path): lemmatization, NER and verb extraction degrade
  exactly as the source's `None`-guards prescribe.
* Randomness: the source draws from Python's global PRNG via
  `random.sample`, `random.shuffle`, `random.choice`.  Each primitive is
  modelled as a deterministic function of an explicit tape of naturals
  (`List Nat` / `Nat`); every call site receives its own tape, and theorems
  quantify over all tapes, hence over every realizable PRNG behaviour.
* CPython's `list(set(...))` iteration order is hash-dependent (and hash
  randomization makes it vary between runs).  It is modelled as an explicit
  reordering oracle `setOrder : List Str → List Str` applied to the
  first-occurrence deduplication of the inserted elements.
* Python exceptions that the quiz orchestrator catches (`IndexError` from
  `[ ][0]` on present-but-empty dict entries) are modelled with `Except`.
-/

abbrev Str := List Char

/-- ASCII whitespace, the model of Python's `\s` / `str.strip()` class:
space, tab, newline, carriage return, vertical tab, form feed. -/
def isWsChar (c : Char) : Bool :=
  c.toNat = 32 || c.toNat = 9 || c.toNat = 10 || c.toNat = 13 ||
  c.toNat = 11 || c.toNat = 12

/-- ASCII model of the regex class `\w`: letters, digits, underscore. -/
def isWordChar (c : Char) : Bool :=
  (48 ≤ c.toNat && c.toNat ≤ 57) || (65 ≤ c.toNat && c.toNat ≤ 90) ||
  (97 ≤ c.toNat && c.toNat ≤ 122) || c.toNat = 95

def isUpperAlpha (c : Char) : Bool := 65 ≤ c.toNat && c.toNat ≤ 90

def isLowerAlpha (c : Char) : Bool := 97 ≤ c.toNat && c.toNat ≤ 122

def isAlphaChar (c : Char) : Bool := isUpperAlpha c || isLowerAlpha c

def isDigitChar (c : Char) : Bool := 48 ≤ c.toNat && c.toNat ≤ 57

/-- The sentence terminators used by the split `[.!?]+` in the source. -/
def isSentEnd (c : Char) : Bool := c = '.' || c = '!' || c = '?'

/-- Python `str.lower()` on the ASCII range; agrees with `Char.toLower`. -/
def lowChar (c : Char) : Char := Char.toLower c

def lowerStr (s : Str) : Str := s.map lowChar

/-- Python `str.lstrip()` (whitespace). -/
def lstripWs (s : Str) : Str := s.dropWhile isWsChar

/-- Python `str.rstrip()` (whitespace). -/
def rstripWs (s : Str) : Str := (s.reverse.dropWhile isWsChar).reverse

/-- Python `str.strip()` (whitespace on both ends). -/
def stripWs (s : Str) : Str := rstripWs (lstripWs s)

/-- `re.sub(r'\s+', ' ', s)`: every maximal whitespace run becomes one space.
The flag records whether the previous character belonged to a run. -/
def collapseAux : Bool → Str → Str
  | _, [] => []
  | prevWs, c :: cs =>
    if isWsChar c then
      if prevWs then collapseAux true cs else ' ' :: collapseAux true cs
    else c :: collapseAux false cs

def collapseWs (s : Str) : Str := collapseAux false s

/-- Python `str.split()` with no argument: split on whitespace runs,
dropping empty pieces.  `acc` is the current word, reversed. -/
def splitWsAux : Str → Str → List Str
  | [], acc => if acc.isEmpty then [] else [acc.reverse]
  | c :: cs, acc =>
    if isWsChar c then
      if acc.isEmpty then splitWsAux cs [] else acc.reverse :: splitWsAux cs []
    else splitWsAux cs (c :: acc)

def pySplitWs (s : Str) : List Str := splitWsAux s []

/-- `len(s.split())`, the word count used by `_truncate_story`. -/
def wordCount (s : Str) : Nat := (pySplitWs s).length

/-- Python `' '.join(ws)`. -/
def joinSpace : List Str → Str
  | [] => []
  | [w] => w
  | w :: ws => w ++ ' ' :: joinSpace ws

/-- Python `'\n'.join(ws)`. -/
def joinNl : List Str → Str
  | [] => []
  | [w] => w
  | w :: ws => w ++ '\n' :: joinNl ws

/-- Does `s` begin with `pat`?  (Model of `str.startswith` / regex literal.) -/
def strStarts : Str → Str → Bool
  | [], _ => true
  | _ :: _, [] => false
  | p :: ps, c :: cs => p = c && strStarts ps cs

/-- Python substring containment `pat in s` (empty pattern is contained). -/
def strHasSub (pat : Str) : Str → Bool
  | [] => pat.isEmpty
  | c :: cs => strStarts pat (c :: cs) || strHasSub pat cs

/-- Python `s.endswith(pat)`. -/
def strEnds (s pat : Str) : Bool := strStarts pat.reverse s.reverse

/-- First-occurrence deduplication: the filter
`[x for x in pool if not (x in seen or seen.add(x))]` of `_safe_sample`,
and also the set of elements of a Python `set` built by insertions. -/
def dedupFAux : List Str → List Str → List Str
  | [], _ => []
  | x :: xs, seen =>
    if x ∈ seen then dedupFAux xs seen else x :: dedupFAux xs (x :: seen)

def dedupF (l : List Str) : List Str := dedupFAux l []

/-- Stable insertion for descending-length order, the model of
`sorted(names, key=len, reverse=True)` (Python's sort is stable). -/
def insertLenDesc (x : Str) : List Str → List Str
  | [] => [x]
  | y :: ys => if x.length < y.length then y :: insertLenDesc x ys else x :: y :: ys

def sortLenDesc : List Str → List Str
  | [] => []
  | x :: xs => insertLenDesc x (sortLenDesc xs)

/-- Decidable check that a list is in descending order of string length. -/
def isSortedLenDesc : List Str → Bool
  | [] => true
  | [_] => true
  | x :: y :: t => (y.length ≤ x.length) && isSortedLenDesc (y :: t)

/-- Python set insertion (order-insensitive; only membership is ever used). -/
def setInsert (x : Str) (s : List Str) : List Str := if x ∈ s then s else x :: s

/-- `random.sample(pool, k)` for `k ≤ pool.length`, as a function of a tape:
repeatedly pick the `(r mod remaining)`-th element and remove it.  Every
sample without replacement is realized by some tape. -/
def sampleTape {α : Type} : List Nat → List α → Nat → List α
  | _, _, 0 => []
  | _, [], _ + 1 => []
  | rng, p :: ps, k + 1 =>
    (p :: ps).getD ((rng.headD 0) % (p :: ps).length) p ::
      sampleTape rng.tail ((p :: ps).eraseIdx ((rng.headD 0) % (p :: ps).length)) k

/-- `random.shuffle(l)` as a function of a tape: pick-and-remove until the
list is exhausted (`fuel` starts at `l.length`).  Every permutation is
realized by some tape. -/
def pickPerm {α : Type} : Nat → List Nat → List α → List α
  | 0, _, l => l
  | _ + 1, _, [] => []
  | fuel + 1, rng, p :: ps =>
    (p :: ps).getD ((rng.headD 0) % (p :: ps).length) p ::
      pickPerm fuel rng.tail ((p :: ps).eraseIdx ((rng.headD 0) % (p :: ps).length))

def shuffleTape {α : Type} (rng : List Nat) (l : List α) : List α := pickPerm l.length rng l

/-- `random.choice(l)` for nonempty `l` (every call site passes a nonempty
literal list); the `[]` default is unreachable there. -/
def pyChoice (r : Nat) (l : List Str) : Str := l.getD (r % l.length) []

/-- `OllamaStoryQuizGame._safe_sample(pool, k, fallback_pool)`:
filter the pool to non-empty trimmed strings, deduplicate keeping first
occurrences, sample `k` if enough remain; otherwise keep all, refill from
the fallback pool skipping items already chosen, and pad with the literal
string `"None"`. -/
def safeSampleFill (k : Nat) (result : List Str) : List Str → List Str
  | [] => result
  | item :: rest =>
    if k ≤ result.length then result
    else if item ∈ result then safeSampleFill k result rest
    else safeSampleFill k (result ++ [item]) rest

def safeSample (rng : List Nat) (pool : List Str) (k : Nat) (fallbackPool : List Str) : List Str :=
  let pool1 := pool.filter (fun p => !p.isEmpty && !(stripWs p).isEmpty)
  let pool2 := dedupF pool1
  if k ≤ pool2.length then sampleTape rng pool2 k
  else
    let r := safeSampleFill k pool2 fallbackPool
    r ++ List.replicate (k - r.length) ("None".data)

/-- The character class kept by `re.sub(r'[^\w\s]', '', s)`. -/
def keepChar (c : Char) : Bool := isWordChar c || isWsChar c

/-- Characterization of whitespace-collapsed text: every whitespace
character is a plain space and no two adjacent characters are both
whitespace. -/
def spacedOk : Str → Bool
  | [] => true
  | [c] => !isWsChar c || c = ' '
  | c :: d :: tl =>
    (!isWsChar c || c = ' ') && !(isWsChar c && isWsChar d) && spacedOk (d :: tl)

/-- The first character, if any, is not whitespace. -/
def headNonWs : Str → Bool
  | [] => true
  | c :: _ => !isWsChar c

/-- The canonicalization part of `_normalize_text`: strip, delete every
character outside `\w`/`\s`, collapse whitespace runs to single spaces,
strip again, lowercase. -/
def cleanText (txt : Str) : Str :=
  lowerStr (stripWs (collapseWs ((stripWs txt).filter keepChar)))

/-- `OllamaStoryQuizGame._normalize_text` on the no-spaCy path: canonicalize,
then strip one trailing `"ed"` (else one trailing `"ing"`) from the whole
string if present.  Empty input yields the empty string. -/
def normalizeText (txt : Str) : Str :=
  if txt.isEmpty then []
  else
    let s := cleanText txt
    if strEnds s ("ed".data) then s.dropLast.dropLast
    else if strEnds s ("ing".data) then s.dropLast.dropLast.dropLast
    else s

/-! ### Question records -/

/-- The four choice keys `"A".."D"` (dict keys `chr(65+i)`). -/
inductive Letter
  | A | B | C | D
deriving DecidableEq, Repr

/-- `chr(65 + idx)` for the `0..3` positions used by the synthesizer. -/
def letterOfIdx (i : Nat) : Letter :=
  if i = 0 then .A else if i = 1 then .B else if i = 2 then .C else .D

/-- The regex class `([A-D])` under `re.I`, with `.group(1).upper()`. -/
def letterOfChar (c : Char) : Option Letter :=
  if c = 'A' ∨ c = 'a' then some .A
  else if c = 'B' ∨ c = 'b' then some .B
  else if c = 'C' ∨ c = 'c' then some .C
  else if c = 'D' ∨ c = 'd' then some .D
  else none

/-- The letter-keyed options dict of a question record. -/
structure OptionsMap where
  optA : Option Str
  optB : Option Str
  optC : Option Str
  optD : Option Str
deriving DecidableEq, Repr

def OptionsMap.empty : OptionsMap := ⟨none, none, none, none⟩

def getOpt (o : OptionsMap) : Letter → Option Str
  | .A => o.optA
  | .B => o.optB
  | .C => o.optC
  | .D => o.optD

/-- `options[key] = val` (insert or overwrite). -/
def setOpt (o : OptionsMap) : Letter → Str → OptionsMap
  | .A, v => { o with optA := some v }
  | .B, v => { o with optB := some v }
  | .C, v => { o with optC := some v }
  | .D, v => { o with optD := some v }

/-- `len(options)`. -/
def numOptions (o : OptionsMap) : Nat :=
  (if o.optA.isSome then 1 else 0) + (if o.optB.isSome then 1 else 0) +
  (if o.optC.isSome then 1 else 0) + (if o.optD.isSome then 1 else 0)

/-- `list(options.values())` in key-insertion order `A, B, C, D` (the
insertion order at every synthesizer construction site). -/
def optValues (o : OptionsMap) : List Str :=
  [o.optA, o.optB, o.optC, o.optD].filterMap id

/-- The dict `{chr(65 + i): l[i] for i in range(4)}`; every call site passes
a list of exactly four items. -/
def mkOpts4 (l : List Str) : OptionsMap := ⟨l[0]?, l[1]?, l[2]?, l[3]?⟩

/-- A question record `{question, options, correct}`. -/
structure Question where
  question : Str
  options : OptionsMap
  correct : Letter
deriving DecidableEq, Repr

/-! ### The robust parser for AI output (`parse_quiz_questions`) -/

/-- `txt.split('\n')`, keeping empty pieces; `acc` is the current piece,
reversed. -/
def splitNlAux : Str → Str → List Str
  | [], acc => [acc.reverse]
  | c :: cs, acc =>
    if c = '\n' then acc.reverse :: splitNlAux cs [] else splitNlAux cs (c :: acc)

/-- `re.match(r'^\s*Question\b', line, re.I)`: optional whitespace, the word
"question" case-insensitively, then a word boundary. -/
def startsQuestionWord (l : Str) : Bool :=
  let r := l.dropWhile isWsChar
  lowerStr (r.take 8) == "question".data &&
    (match r.drop 8 with
     | [] => true
     | c :: _ => !isWordChar c)

/-- Group lines into blocks: a new block starts at each line matching
`^\s*Question\b` provided the current block is nonempty; the final block is
kept when nonempty. -/
def mkBlocksAux : List Str → List Str → List (List Str)
  | [], current => if current.isEmpty then [] else [current]
  | line :: rest, current =>
    if startsQuestionWord line && !current.isEmpty then
      current :: mkBlocksAux rest [line]
    else mkBlocksAux rest (current ++ [line])

/-- `option_re = re.compile(r'^\s*([A-D])\s*[\)\.\:]\s*(.+)$', re.I)`:
returns the uppercased letter and the second capture group.  `(.+)$`
succeeds exactly when a character remains after the bracket; the greedy
`\s*` before it removes leading whitespace unless the remainder is all
whitespace, in which case backtracking leaves the final single space as the
group. -/
def matchOptionLine (l : Str) : Option (Letter × Str) :=
  match l.dropWhile isWsChar with
  | [] => none
  | c :: r1 =>
    match letterOfChar c with
    | none => none
    | some key =>
      match r1.dropWhile isWsChar with
      | [] => none
      | b :: r3 =>
        if b = ')' ∨ b = '.' ∨ b = ':' then
          if r3.isEmpty then none
          else
            some (key, if (r3.dropWhile isWsChar).isEmpty then [' ']
                       else r3.dropWhile isWsChar)
        else none

/-- Index of the first line matching the option pattern. -/
def findOptIdx : List Str → Option Nat
  | [] => none
  | l :: ls =>
    if (matchOptionLine l).isSome then some 0 else (findOptIdx ls).map (· + 1)

/-- The option-collecting loop over the lines from the first option line on;
values are whitespace-collapsed and stripped; later duplicate letters
overwrite earlier ones. -/
def buildOptions : List Str → OptionsMap → OptionsMap
  | [], o => o
  | l :: ls, o =>
    match matchOptionLine l with
    | some (key, g2) => buildOptions ls (setOpt o key (collapseWs (stripWs g2)))
    | none => buildOptions ls o

/-- `re.sub(r'^\s*Question\s*\d*\s*[:\-]?\s*', '', t, flags=re.I)`:
remove an optional `Question[number][:-]` prefix. -/
def stripQuestionPrefix (l : Str) : Str :=
  let r := l.dropWhile isWsChar
  if lowerStr (r.take 8) == "question".data then
    let r1 := (((r.drop 8).dropWhile isWsChar).dropWhile isDigitChar).dropWhile isWsChar
    match r1 with
    | c :: t => if c = ':' ∨ c = '-' then t.dropWhile isWsChar else r1
    | [] => r1
  else l

/-- Match `kw` case-insensitively followed by `\s*[:\-]?\s*([A-D])` at the
beginning of `s`, returning the captured letter uppercased. -/
def matchAnswerAt (kw : Str) (s : Str) : Option Letter :=
  if lowerStr (s.take kw.length) == lowerStr kw then
    let r := (s.drop kw.length).dropWhile isWsChar
    let r2 := match r with
      | c :: t => if c = ':' ∨ c = '-' then t.dropWhile isWsChar else r
      | [] => r
    match r2 with
    | c :: _ => letterOfChar c
    | [] => none
  else none

/-- `re.search` for one answer pattern: try each position left to right. -/
def searchAnswer1 (kw : Str) : Str → Option Letter
  | [] => none
  | c :: t => (matchAnswerAt kw (c :: t)) <|> searchAnswer1 kw t

/-- The prioritized answer patterns `Correct Answer`, `Correct`, `Answer`
(each `\s*[:\-]?\s*([A-D])`, case-insensitive); first match wins. -/
def searchAnswer (blockText : Str) : Option Letter :=
  (searchAnswer1 ("Correct Answer".data) blockText) <|>
  ((searchAnswer1 ("Correct".data) blockText) <|>
   (searchAnswer1 ("Answer".data) blockText))

/-- Process one block of `parse_quiz_questions`: keep only lines with
nonempty strip, locate the first option line, take the lines before it as
question text (prefix-stripped), collect options, search the block text for
a correct-answer letter, and yield a record only if the question text is
nonempty, exactly 4 distinct option keys were found, and the letter is one
of them. -/
def blockLines (block : List Str) : List Str :=
  block.filter (fun l => !(stripWs l).isEmpty)

def questionTextOf (bl : List Str) (i : Nat) : Str :=
  stripWs (stripQuestionPrefix (stripWs (joinSpace (bl.take i))))

def optionsOf (bl : List Str) (i : Nat) : OptionsMap :=
  buildOptions (bl.drop i) OptionsMap.empty

def parseBlock (block : List Str) : Option Question :=
  match findOptIdx (blockLines block) with
  | none => none
  | some i =>
    match searchAnswer (joinNl (blockLines block)) with
    | none => none
    | some correctLetter =>
      if questionTextOf (blockLines block) i ≠ [] ∧
          numOptions (optionsOf (blockLines block) i) = 4 ∧
          (getOpt (optionsOf (blockLines block) i) correctLetter).isSome = true then
        some ⟨questionTextOf (blockLines block) i, optionsOf (blockLines block) i,
          correctLetter⟩
      else none

/-- `OllamaStoryQuizGame.parse_quiz_questions`. -/
def parseQuizQuestions (txt : Str) : List Question :=
  if txt.isEmpty then []
  else
    let lines := (splitNlAux (txt.filter (fun c => c ≠ '\r')) []).map rstripWs
    (mkBlocksAux lines []).filterMap parseBlock

/-! ### Story truncation -/

/-- `truncated[:truncated.rfind('.') + 1]` for a string containing a dot:
`rfind` returns the index of the last `'.'`, and slicing up to it inclusive
drops exactly the trailing run of non-dot characters. -/
def truncAtLastDot (l : Str) : Str :=
  (l.reverse.dropWhile (fun c => c ≠ '.')).reverse

/-- `OllamaStoryQuizGame._truncate_story(story, word_limit)`: return the
story unchanged when it has at most `word_limit` words; otherwise join the
first `word_limit` words, cut at the last `'.'` if one occurs there, else
append `"..."`. -/
def truncateStory (story : Str) (wordLimit : Nat) : Str :=
  if (pySplitWs story).length ≤ wordLimit then story
  else
    if ('.' : Char) ∈ joinSpace ((pySplitWs story).take wordLimit) then
      truncAtLastDot (joinSpace ((pySplitWs story).take wordLimit))
    else joinSpace ((pySplitWs story).take wordLimit) ++ ("...").data

/-- The spec's Scenario 1 parser input. -/
def scenario1Text : Str :=
  ("Question: Who opened the door?\nA) Alice\nB) Bob\nC) Carl\nD) Dee\nCorrect Answer: A").data

/-- The record that Scenario 1 yields. -/
def scenario1Record : Question :=
  { question := ("Who opened the door?").data
    options :=
      { optA := some (("Alice").data)
        optB := some (("Bob").data)
        optC := some (("Carl").data)
        optD := some (("Dee").data) }
    correct := Letter.A }


/-! ### Element extraction (`extract_story_elements`) -/

/-- Convenience: a list of Lean string literals as `Str` values. -/
def strs (l : List String) : List Str := l.map String.data

/-- The module-level `OBJECT_WORDS` vocabulary. -/
def OBJECT_WORDS : List Str := strs
  ["amulet", "armor", "arrow", "artifact", "bag", "banner", "boat", "book", "bow", "box",
   "bracelet", "bridge", "brooch", "cabinet", "carriage", "castle", "cauldron", "cave",
   "chalice", "chest", "clock", "clue", "coin", "compass", "crown", "crystal", "dagger",
   "datapad", "desk", "device", "diary", "door", "dragon", "drone", "drum", "elixir",
   "engine", "envelope", "flute", "forest", "fountain", "gem", "goblet", "grimoire",
   "harp", "helmet", "hologram", "horse", "house", "idol", "jetpack", "journal", "key",
   "knight", "lamp", "lantern", "laser", "letter", "locket", "manuscript", "map",
   "mask", "medallion", "mirror", "monster", "mountain", "necklace", "note", "orb",
   "painting", "pendant", "photograph", "plate", "portal", "potion", "relic", "ring",
   "river", "robot", "rope", "runestone", "scepter", "scroll", "shield", "ship",
   "spaceship", "spear", "spellbook", "staff", "statue", "stone", "sword", "talisman",
   "tapestry", "telescope", "throne", "torch", "treasure", "tree", "wand", "waterfall",
   "whistle", "wizard", "bird", "cat", "chair", "dog", "flower", "table"]

/-- The module-level `PLACE_WORDS` vocabulary. -/
def PLACE_WORDS : List Str := strs
  ["academy", "alley", "arena", "asteroid field", "asylum", "beach", "bunker",
   "canyon", "castle", "catacomb", "cathedral", "cave", "chamber", "chapel",
   "citadel", "city", "clearing", "coast", "cottage", "courtyard", "crypt",
   "desert", "dock", "dungeon", "estate", "factory", "farm", "field", "forest",
   "fortress", "galaxy", "garden", "glade", "harbor", "headquarters", "hill",
   "hospital", "house", "island", "jungle", "kingdom", "laboratory", "lair",
   "lake", "library", "mansion", "market", "meadow", "mine", "monastery",
   "mountain", "museum", "observatory", "ocean", "outpost", "palace", "path",
   "planet", "port", "prison", "realm", "river", "road", "ruins", "sanctuary",
   "school", "sewer", "shop", "space station", "stronghold", "swamp", "temple",
   "tomb", "tower", "town", "tunnel", "valley", "village", "volcano", "warehouse"]

/-- The `common_words` set discarded from standalone name candidates. -/
def COMMON_WORDS : List Str := strs
  ["The", "This", "That", "They", "Then", "There", "These", "Those",
   "When", "Where", "What", "Who", "Why", "How", "And", "But", "Or",
   "So", "For", "As", "At", "By", "In", "On", "To", "With", "From", "A", "An"]

/-- The honorific/title set that joins with the following candidate. -/
def TITLES : List Str := strs
  ["Agent", "Captain", "Commander", "Dame", "Detective", "Dr", "General", "King",
   "Lady", "Lord", "Miss", "Mr", "Mrs", "Ms", "Officer", "Prince", "Princess",
   "Professor", "Queen", "Sergeant", "Sir"]

/-- The first character, if any, is not a `\w` character. -/
def headNonWord : Str -> Bool
  | [] => true
  | c :: _ => !isWordChar c

/-- `re.findall(r'\b[A-Z][a-z]{2,}\b', story)`: scan left to right; at a
word boundary, an uppercase letter followed by its maximal run of at least
two lowercase letters matches when the character after the run is not a
word character; scanning resumes after the match (whose last character is a
word character, so `boundary` becomes false). -/
def findNamesFuel : Nat -> Bool -> Str -> List Str
  | 0, _, _ => []
  | _ + 1, _, [] => []
  | fuel + 1, boundary, c :: cs =>
    if boundary && isUpperAlpha c && 2 <= (cs.takeWhile isLowerAlpha).length
        && headNonWord (cs.drop (cs.takeWhile isLowerAlpha).length) then
      (c :: cs.takeWhile isLowerAlpha) ::
        findNamesFuel fuel false (cs.drop (cs.takeWhile isLowerAlpha).length)
    else findNamesFuel fuel (!isWordChar c) cs

/-- Each scan step consumes at least one character, so `length + 1` units of
fuel always dominate the scan and the function equals the unbounded one. -/
def potentialNames (story : Str) : List Str :=
  findNamesFuel (story.length + 1) true story

/-- The candidate-merging loop: a title immediately followed (in the match
list) by another candidate contributes the joined two-word name; other
candidates contribute themselves unless they are common function words. -/
def mergeNames : List Str -> List Str
  | [] => []
  | w :: rest =>
    if w ∈ TITLES ∧ rest ≠ [] then (w ++ ' ' :: rest.headD []) :: mergeNames rest
    else if w ∉ COMMON_WORDS then w :: mergeNames rest
    else mergeNames rest

/-- `re.split(r'[.!?]+', story)`: split on runs of sentence terminators,
keeping empty edge pieces.  The flag tracks whether the previous character
belonged to a terminator run. -/
def splitSentAux : Bool -> Str -> Str -> List Str
  | _, [], acc => [acc.reverse]
  | inRun, c :: cs, acc =>
    if isSentEnd c then
      if inRun then splitSentAux true cs acc
      else acc.reverse :: splitSentAux true cs []
    else splitSentAux false cs (c :: acc)

/-- The cleaned sentence list: pieces with nonempty strip, stripped. -/
def extractSentences (story : Str) : List Str :=
  ((splitSentAux false story []).filter (fun s => !(stripWs s).isEmpty)).map stripWs

/-- The derived story-elements map. -/
structure StoryElements where
  names : List Str
  actions : List Str
  objects : List Str
  places : List Str
  sentences : List Str
  firstSentence : Str
  storyWords : List Str
deriving DecidableEq, Repr

/-- `combined_names` as an insertion-ordered duplicate-free list; the
spaCy NER contribution is empty (no backend). -/
def combinedNames (story : Str) : List Str := dedupF (mergeNames (potentialNames story))

/-- The `names` field: `sorted(list(combined_names), key=len, reverse=True)`
followed by `list(set(names))[:5]`, with `setOrder` modelling the
hash-dependent iteration order of `list(set(...))`. -/
def extractNames (setOrder : List Str -> List Str) (story : Str) : List Str :=
  (setOrder (dedupF (sortLenDesc (setOrder (combinedNames story))))).take 5

/-- The `objects` field: vocabulary entries contained in the lowercased
story, deduplicated through a set and capped at 5. -/
def extractObjects (setOrder : List Str -> List Str) (story : Str) : List Str :=
  (setOrder (dedupF (OBJECT_WORDS.filter (fun w => strHasSub w (lowerStr story))))).take 5

/-- The `places` field, as for `objects`. -/
def extractPlaces (setOrder : List Str -> List Str) (story : Str) : List Str :=
  (setOrder (dedupF (PLACE_WORDS.filter (fun w => strHasSub w (lowerStr story))))).take 5

/-- `OllamaStoryQuizGame.extract_story_elements` (no spaCy: `action_words`
is empty, and `list(set([]))[:5]` is empty for every iteration order). -/
def extractStoryElements (setOrder : List Str -> List Str) (story : Str) : StoryElements :=
  { names := extractNames setOrder story
    actions := []
    objects := extractObjects setOrder story
    places := extractPlaces setOrder story
    sentences := (extractSentences story).take 6
    firstSentence := (extractSentences story).headD []
    storyWords := pySplitWs story }

/-! ### The question synthesizer -/

/-- Python exceptions swallowed by the orchestrator: the `IndexError`
raised by `elements.get(key, [None])[0]` when the key is present but its
list is empty. -/
inductive PyExn
  | indexError
deriving DecidableEq, Repr

/-- The per-generator random tape bundle: two sample tapes, one shuffle
tape, and one choice draw. -/
structure GenR where
  sampleA : List Nat
  sampleB : List Nat
  shuffleR : List Nat
  choiceR : Nat
deriving Repr

def defaultGenR : GenR := ⟨[], [], [], 0⟩

/-- Python `str.title()`: the first letter of each letter-run is uppercased
and the rest lowercased (ASCII model). -/
def titleCaseAux : Bool -> Str -> Str
  | _, [] => []
  | prevAlpha, c :: cs =>
    (if prevAlpha then lowChar c else Char.toUpper c) :: titleCaseAux (isAlphaChar c) cs

def titleStr (s : Str) : Str := titleCaseAux false s

def testOpt (p : Str -> Bool) : Option Str -> Bool
  | some v => p v
  | none => false

/-- `next((k for k, v in options.items() if p v), None)` in the key
insertion order `A, B, C, D` used by every synthesizer site. -/
def findLetterBy (o : OptionsMap) (p : Str -> Bool) : Option Letter :=
  if testOpt p o.optA then some Letter.A
  else if testOpt p o.optB then some Letter.B
  else if testOpt p o.optC then some Letter.C
  else if testOpt p o.optD then some Letter.D
  else none

def natToStr (n : Nat) : Str := (Nat.repr n).data

/-- The inner helper `make_mcq` of `generate_unique_questions`: sample three
decoys from the pool (excluding empties and case-insensitive duplicates of
the correct text), shuffle `[correct_text] + decoys`, optionally title-case
for display, key by position, and resolve the correct letter by normalized
equality-or-containment against the correct text, falling back to the
positional index (the options always contain the correct text). -/
def makeMcq (R : GenR) (correctText : Str) (decoyPool fallbackPool : List Str)
    (titleCase : Bool) : OptionsMap × Letter :=
  let decoys := safeSample R.sampleA
    (decoyPool.filter (fun d => !d.isEmpty && lowerStr d ≠ lowerStr correctText))
    3 fallbackPool
  let opts := shuffleTape R.shuffleR (correctText :: decoys)
  let optsDisplay := if titleCase then opts.map titleStr else opts
  let options := mkOpts4 optsDisplay
  let normCorrect := normalizeText correctText
  let correctKey :=
    match findLetterBy options (fun v =>
      normalizeText v == normCorrect || strHasSub normCorrect (normalizeText v)
        || strHasSub (normalizeText v) normCorrect) with
    | some k => k
    | none => letterOfIdx (opts.indexOf correctText)
  (options, correctKey)

/-- `_action_by_main_character`: with no spaCy backend the source returns
`None` immediately. -/
def actionByMainCharacter (_story : Str) (_mainCharacter : Str) : Option Str := none

def decoyNames : List Str := strs
  ["Aarav", "Aditi", "Advik", "Aisha", "Alex", "Anika", "Arjun", "Aryan",
   "Ava", "Benjamin", "Caleb", "Casey", "Charlotte", "Chloe", "Cyrus",
   "Daniel", "David", "Diya", "Elena", "Elijah", "Emily", "Emma", "Ethan",
   "Finn", "Freya", "Gabriel", "Grace", "Harper", "Henry", "Ishan",
   "Isabella", "Jack", "James", "Jasper", "Jordan", "Julian", "Kai",
   "Kavya", "Krish", "Leo", "Liam", "Lily", "Logan", "Lucas", "Luna",
   "Madison", "Mason", "Mateo", "Maya", "Meera", "Mia", "Michael",
   "Morgan", "Nitya", "Noah", "Nora", "Oliver", "Olivia", "Om", "Owen",
   "Penelope", "Priya", "Rahul", "Riley", "River", "Riya", "Rohan",
   "Sage", "Sam", "Samuel", "Shaan", "Siya", "Sofia", "Sophia", "Taylor",
   "Vihaan", "Vivaan", "William", "Wyatt", "Zara", "Zoe"]

def qNameTexts : List Str := strs
  ["Who is the main character in the story?",
   "Which character is central to the tale?",
   "Who does the story follow?",
   "Which of the following characters appears in the story?"]

/-- The `q_name` strategy. -/
def qName (_story : Str) (e : StoryElements) (R : GenR) (used : List Str) :
    Except PyExn (Option Question × List Str) :=
  match e.names with
  | [] => .ok (none, used)
  | main :: _ =>
    if lowerStr main ∈ used then .ok (none, used)
    else
      let used1 := setInsert (lowerStr main) used
      let mk := makeMcq R main decoyNames decoyNames true
      .ok (some (Question.mk (pyChoice R.choiceR qNameTexts) mk.1 mk.2), used1)

def decoyActions : List Str := strs
  ["argued", "built", "calculated", "climbed", "cooked", "cried", "danced",
   "decoded", "drew", "dreamed", "escaped", "flew", "laughed", "listened",
   "meditated", "negotiated", "painted", "played", "programmed", "ran",
   "read", "repaired", "sang", "shouted", "slept", "studied", "surrendered",
   "swam", "teleported", "trained", "traveled", "waited", "walked",
   "whispered", "worked", "wrote", "stepped", "entered", "invited"]

def qActionTexts : List Str := strs
  ["What is a key action that takes place in the story?",
   "Which of these actions is described in the narrative?",
   "What did someone in the story do?"]

/-- The `q_action` strategy.  `elements.get('names', [None])[0]` raises
`IndexError` when the `names` entry is present but empty. -/
def qAction (story : Str) (e : StoryElements) (R : GenR) (used : List Str) :
    Except PyExn (Option Question × List Str) :=
  match e.actions with
  | [] => .ok (none, used)
  | a0 :: _ =>
    match e.names with
    | [] => .error .indexError
    | mainChar :: _ =>
      let viaNlp := if mainChar.isEmpty then none
        else actionByMainCharacter story mainChar
      let mainAction := viaNlp.getD a0
      if mainAction.isEmpty then .ok (none, used)
      else if lowerStr mainAction ∈ used then .ok (none, used)
      else
        let used1 := setInsert (lowerStr mainAction) used
        let mk := makeMcq R mainAction decoyActions decoyActions true
        .ok (some (Question.mk (pyChoice R.choiceR qActionTexts) mk.1 mk.2), used1)

def decoyObjs : List Str := strs
  ["amulet", "compass", "crystal", "key", "lantern", "map", "mirror", "orb",
   "potion", "ring", "scroll", "staff", "sword", "talisman", "treasure chest",
   "vial", "wand", "journal", "relic"]

def qObjectTexts : List Str := strs
  ["Which important object is mentioned in the story?",
   "What item plays a role in the narrative?",
   "Which of these objects appears in the tale?"]

/-- The `q_object` strategy. -/
def qObject (_story : Str) (e : StoryElements) (R : GenR) (used : List Str) :
    Except PyExn (Option Question × List Str) :=
  match e.objects with
  | [] => .ok (none, used)
  | mainObj :: _ =>
    if lowerStr mainObj ∈ used then .ok (none, used)
    else
      let used1 := setInsert (lowerStr mainObj) used
      let mk := makeMcq R mainObj decoyObjs decoyObjs true
      .ok (some (Question.mk (pyChoice R.choiceR qObjectTexts) mk.1 mk.2), used1)

def decoyPlaces : List Str := strs
  ["desert", "ocean", "jungle", "space station", "volcano", "swamp", "canyon",
   "meadow", "tundra", "castle", "temple", "city", "laboratory", "mansion",
   "market", "mine", "observatory", "palace", "ruins", "tower", "harbor",
   "factory"]

def qPlaceTexts : List Str := strs
  ["Where does the story take place?",
   "What is the primary setting of the story?",
   "Which location is described in the narrative?",
   "The story is set in which of these locations?",
   "What is the backdrop for this tale?"]

/-- The `q_place` strategy. -/
def qPlace (_story : Str) (e : StoryElements) (R : GenR) (used : List Str) :
    Except PyExn (Option Question × List Str) :=
  match e.places with
  | [] => .ok (none, used)
  | mainPlace :: _ =>
    if lowerStr mainPlace ∈ used then .ok (none, used)
    else
      let used1 := setInsert (lowerStr mainPlace) used
      let mk := makeMcq R mainPlace decoyPlaces decoyPlaces true
      .ok (some (Question.mk (pyChoice R.choiceR qPlaceTexts) mk.1 mk.2), used1)

def seqDecoyPool : List Str := strs
  ["They found a glowing key", "A ship sailed away", "A mysterious letter arrived",
   "The village celebrated", "A bell began to ring", "The sun hid behind clouds",
   "A storm began to brew", "The hero made a plan", "A map was discovered",
   "The door creaked open", "A secret was revealed", "They started their journey",
   "A strange sound was heard", "The group took a rest", "A decision was made",
   "An old enemy appeared"]

def qSequenceTexts : List Str := strs
  ["Which of the following happened first in the story?",
   "What event comes earliest in the narrative?",
   "How does the story begin?",
   "Which event marks the start of the story?"]

/-- `short(p)`: the first ten words, with `"..."` when truncated. -/
def shortPhrase (p : Str) : Str :=
  joinSpace ((pySplitWs p).take 10) ++
    (if 10 < (pySplitWs p).length then ("...").data else [])

/-- The `q_sequence` strategy (the correct key defaults to `A` only in the
unreachable case where the first-sentence phrase is not among the shuffled
options). -/
def qSequence (_story : Str) (e : StoryElements) (R : GenR) (used : List Str) :
    Except PyExn (Option Question × List Str) :=
  match e.sentences with
  | s1 :: s2 :: _ =>
    let o1 := shortPhrase (stripWs s1)
    let o2 := shortPhrase (stripWs s2)
    let decoys := safeSample R.sampleA seqDecoyPool 2 seqDecoyPool
    let options := shuffleTape R.shuffleR [o1, o2, decoys.getD 0 [], decoys.getD 1 []]
    let optionsDict := mkOpts4 options
    let correctKey := (findLetterBy optionsDict (fun v => v == o1)).getD Letter.A
    .ok (some (Question.mk (pyChoice R.choiceR qSequenceTexts) optionsDict correctKey), used)
  | _ => .ok (none, used)

/-- The `q_true_false` strategy.  Both `elements.get('objects', [None])[0]`
and `elements.get('actions', [None])[0]` are evaluated up front, so either
entry being present but empty raises `IndexError`. -/
def qTrueFalse (_story : Str) (e : StoryElements) (_R : GenR) (used : List Str) :
    Except PyExn (Option Question × List Str) :=
  match e.names with
  | [] => .ok (none, used)
  | subj :: _ =>
    match e.objects with
    | [] => .error .indexError
    | obj :: _ =>
      match e.actions with
      | [] => .error .indexError
      | act :: _ =>
        if !obj.isEmpty then
          let stmt := subj ++ (" discovered a ").data ++ obj ++ [ '.' ]
          let correctKey :=
            if strHasSub (lowerStr obj) (lowerStr (joinSpace e.storyWords)) then Letter.A
            else Letter.B
          .ok (some (Question.mk (("True or False: ").data ++ stmt)
            (OptionsMap.mk (some (("True").data)) (some (("False").data))
              (some (("Maybe").data)) (some (("Not stated").data))) correctKey), used)
        else if !act.isEmpty then
          let stmt := subj ++ [' '] ++ act ++ (" in the story.").data
          let correctKey :=
            if strHasSub (lowerStr act) (lowerStr (joinSpace e.storyWords)) then Letter.A
            else Letter.B
          .ok (some (Question.mk (("True or False: ").data ++ stmt)
            (OptionsMap.mk (some (("True").data)) (some (("False").data))
              (some (("Maybe").data)) (some (("Not stated").data))) correctKey), used)
        else .ok (none, used)

def notmCandidates : List Str := strs
  ["spaceship", "glacier", "police station", "motorcycle", "astronaut", "market",
   "jewel", "statue", "bridge", "robot", "scepter", "chronometer"]

def qNotmTexts : List Str := strs
  ["Which of the following is NOT mentioned in the story?",
   "Which item/place/character did the story NOT mention?"]

/-- The `q_not_mentioned` strategy. -/
def qNotMentioned (_story : Str) (e : StoryElements) (R : GenR) (used : List Str) :
    Except PyExn (Option Question × List Str) :=
  let storyText := lowerStr (joinSpace e.storyWords)
  let mentioned := (e.objects ++ e.places ++ e.names).filter
    (fun m => !m.isEmpty && strHasSub (lowerStr m) storyText)
  let notMentionedPool := notmCandidates.filter (fun d => !strHasSub (lowerStr d) storyText)
  if notMentionedPool.isEmpty then .ok (none, used)
  else
    let correctItem := (safeSample R.sampleA notMentionedPool 1 notmCandidates).headD []
    let otherPool := (mentioned ++ notMentionedPool).filter
      (fun o => lowerStr o ≠ lowerStr correctItem)
    let others := safeSample R.sampleB otherPool 3 notmCandidates
    let opts := shuffleTape R.shuffleR (correctItem :: others)
    let optsDict := mkOpts4 (opts.map titleStr)
    let correctKey :=
      (findLetterBy optsDict (fun v => lowerStr v == lowerStr correctItem)).getD Letter.A
    .ok (some (Question.mk (pyChoice R.choiceR qNotmTexts) optsDict correctKey), used)

def inferReasons : List Str := strs
  ["To find treasure", "To escape danger", "To meet a friend",
   "To learn a secret", "To show off", "By accident", "Because they were told to"]

def inferMarkers : List Str := strs ["explor", "discover", "find", "enter", "step"]

/-- The `q_inference` strategy.  `elements.get('actions', [None])[0]` raises
`IndexError` when the `actions` entry is present but empty. -/
def qInference (_story : Str) (e : StoryElements) (R : GenR) (used : List Str) :
    Except PyExn (Option Question × List Str) :=
  match e.names with
  | [] => .ok (none, used)
  | subj :: _ =>
    let reason1 := e.sentences.find? (fun s =>
      strHasSub (("because").data) (lowerStr s) || strHasSub (("so that").data) (lowerStr s)
        || strHasSub (("to").data) (lowerStr s))
    let reasonVal := (match reason1 with
      | some s => some s
      | none => e.sentences.head?).getD []
    if reasonVal.isEmpty then .ok (none, used)
    else
      match e.actions with
      | [] => .error .indexError
      | verbLike :: _ =>
        if verbLike.isEmpty then .ok (none, used)
        else
          let correctReason :=
            if inferMarkers.any (fun w => strHasSub w (lowerStr reasonVal)) then
              ("To explore").data
            else ("Because they had to").data
          let choices := shuffleTape R.shuffleR
            (correctReason :: safeSample R.sampleA inferReasons 3 inferReasons)
          let opts := mkOpts4 choices
          let correctKey := (findLetterBy opts (fun v => v == correctReason)).getD Letter.A
          .ok (some (Question.mk (pyChoice R.choiceR
              [("Why did ").data ++ subj ++ (" do what they did in the story?").data,
               ("What is the most likely reason ").data ++ subj ++ (" acted as they did?").data])
            opts correctKey), used)

/-! ### Contextual fallback and orchestration -/

def ctxOpenerDecoys : List Str := strs
  ["On a stormy night", "Deep within the forest", "It was the silence",
   "In a faraway land", "Long ago, in a kingdom", "No one expected this"]

def ctxPossibleNot : List Str := strs
  ["spaceship", "museum", "robot", "castle", "river", "key", "lantern", "dragon", "market"]

def openingQuestionText : Str := ("Which phrase opens the story?").data

def lengthQuestionText : Str := ("Approximately how long is this story?").data

def aboutStr (n : Nat) : Str := ("About ").data ++ natToStr n ++ (" words").data

/-- The opening phrase `' '.join(first_sentence.split()[:4])`. -/
def ctxPhrase (e : StoryElements) : Str :=
  joinSpace ((pySplitWs e.firstSentence).take 4)

/-- `create_contextual_question(story, elements, used_elements)`: the four
prioritized branches.  The source computes branch 1 option material before
the used check; being pure, the model keeps only the observable parts. -/
def createContextualQuestion (_story : Str) (e : StoryElements) (R : GenR)
    (used : List Str) : Option Question × List Str :=
  if !e.firstSentence.isEmpty ∧ 2 < (pySplitWs e.firstSentence).length ∧
      lowerStr (ctxPhrase e) ∉ used then
    let firstPhrase := ctxPhrase e
    let choices := shuffleTape R.shuffleR
      (firstPhrase :: safeSample R.sampleA ctxOpenerDecoys 3 ctxOpenerDecoys)
    let opts := mkOpts4 choices
    let correct := (findLetterBy opts (fun v => v == firstPhrase)).getD Letter.A
    (some (Question.mk openingQuestionText opts correct),
      setInsert (lowerStr firstPhrase) used)
  else if 40 < e.storyWords.length then
    let wc := e.storyWords.length
    let ranges := shuffleTape R.shuffleR
      [aboutStr wc, aboutStr (max 10 (wc - 40)), aboutStr (wc + 30), aboutStr (max 10 (wc + 60))]
    let opts := mkOpts4 ranges
    let correct := (findLetterBy opts (fun v => strHasSub (natToStr wc) v)).getD Letter.A
    (some (Question.mk lengthQuestionText opts correct), used)
  else
    let storyTextLower := lowerStr (joinSpace e.storyWords)
    let notMentioned := ctxPossibleNot.filter (fun w => !strHasSub w storyTextLower)
    if 1 ≤ notMentioned.length then
      let correctChoice := (safeSample R.sampleA notMentioned 1 ctxPossibleNot).headD []
      let otherChoices := safeSample R.sampleB
        (ctxPossibleNot.filter (fun w => lowerStr w ≠ lowerStr correctChoice)) 3 ctxPossibleNot
      let options := shuffleTape R.shuffleR (correctChoice :: otherChoices)
      let opts := mkOpts4 (options.map titleStr)
      let correctKey :=
        (findLetterBy opts (fun v => lowerStr v == lowerStr correctChoice)).getD Letter.A
      (some (Question.mk (("Which of these is NOT mentioned in the story?").data)
        opts correctKey), used)
    else
      (some (Question.mk (("True or False: The story included a surprising event.").data)
        (OptionsMap.mk (some (("True").data)) (some (("False").data))
          (some (("Not stated").data)) (some (("Maybe").data))) Letter.A), used)

/-- The fixed strategy bank, in source order (shuffled per call). -/
inductive GenId
  | gName | gAction | gObject | gPlace | gSequence | gTrueFalse | gNotMentioned | gInference
deriving DecidableEq, Repr

def runGen : GenId -> Str -> StoryElements -> GenR -> List Str ->
    Except PyExn (Option Question × List Str)
  | .gName => qName
  | .gAction => qAction
  | .gObject => qObject
  | .gPlace => qPlace
  | .gSequence => qSequence
  | .gTrueFalse => qTrueFalse
  | .gNotMentioned => qNotMentioned
  | .gInference => qInference

def bankList : List GenId :=
  [.gName, .gAction, .gObject, .gPlace, .gSequence, .gTrueFalse, .gNotMentioned, .gInference]

/-- The random tapes of one `generate_unique_questions` call: one for the
bank shuffle, one bundle per strategy, one bundle per fallback iteration. -/
structure GuqR where
  bankShuffle : List Nat
  genR : GenId -> GenR
  ctxR : Nat -> GenR

def defaultGuqR : GuqR := ⟨[], fun _ => defaultGenR, fun _ => defaultGenR⟩

/-- The strategy loop: stop at `n` questions, try each generator once,
swallow exceptions, append produced questions, thread the used set. -/
def bankFold (story : Str) (e : StoryElements) (R : GuqR) (n : Nat) :
    List GenId -> List Question × List Str -> List Question × List Str
  | [], st => st
  | g :: gs, (qs, used) =>
    if n ≤ qs.length then (qs, used)
    else
      match runGen g story e (R.genR g) used with
      | .error _ => bankFold story e R n gs (qs, used)
      | .ok (none, used1) => bankFold story e R n gs (qs, used1)
      | .ok (some q, used1) => bankFold story e R n gs (qs ++ [q], used1)

/-- The `while len(questions) < num_needed` fallback loop.  Each iteration
either appends one question or stops, so `n` units of fuel always dominate
the loop (which exits as soon as the length reaches `n`); the model is
therefore equal to the unbounded loop on every input. -/
def fillCtx (story : Str) (e : StoryElements) (R : GuqR) (n : Nat) :
    Nat -> Nat -> List Question × List Str -> List Question × List Str
  | _, 0, st => st
  | i, fuel + 1, (qs, used) =>
    if n ≤ qs.length then (qs, used)
    else
      match createContextualQuestion story e (R.ctxR i) used with
      | (none, used1) => (qs, used1)
      | (some q, used1) => fillCtx story e R n (i + 1) fuel (qs ++ [q], used1)

def notStatedStr : Str := ("Not stated").data

/-- The final structural-integrity pass: any record with a number of
options other than 4 has its option values padded/truncated to exactly 4
and its correct key forced back to a valid one (`A` by default). -/
def cleanupQuestion (q : Question) : Question :=
  if numOptions q.options ≠ 4 then
    let vals := (optValues q.options).take 4
    let opts := mkOpts4 (vals ++ List.replicate (4 - vals.length) notStatedStr)
    if (getOpt opts q.correct).isSome then { q with options := opts }
    else { q with options := opts, correct := Letter.A }
  else q

/-- `OllamaStoryQuizGame.generate_unique_questions(story, elements)` with
`num_questions_per_round = n`. -/
def generateUniqueQuestions (story : Str) (e : StoryElements) (R : GuqR) (n : Nat) :
    List Question :=
  let st1 := bankFold story e R n (shuffleTape R.bankShuffle bankList) ([], [])
  let st2 := fillCtx story e R n 0 n st1
  ((st2.1.take n).map cleanupQuestion).take n

/-- The random/oracle inputs of one full quiz-generation call. -/
structure GameR where
  setOrder : List Str -> List Str
  guqR : GuqR
  gfqCtxR : Nat -> GenR

/-- The backfill loop of `get_fallback_quiz`: a fixed number of contextual
attempts, each against a fresh empty used-elements set. -/
def gfqFill (story : Str) (e : StoryElements) (R : GameR) :
    Nat -> Nat -> List Question -> List Question
  | _, 0, qs => qs
  | i, k + 1, qs =>
    match createContextualQuestion story e (R.gfqCtxR i) [] with
    | (some q, _) => gfqFill story e R (i + 1) k (qs ++ [q])
    | (none, _) => gfqFill story e R (i + 1) k qs

/-- `OllamaStoryQuizGame.get_fallback_quiz(story)`. -/
def getFallbackQuiz (R : GameR) (story : Str) (n : Nat) : List Question :=
  let e := extractStoryElements R.setOrder story
  let uq := generateUniqueQuestions story e R.guqR n
  if n ≤ uq.length then uq.take n
  else (gfqFill story e R 0 (n - uq.length) uq).take n

/-- The three-attempt loop of `generate_quiz_questions`: each attempt sends
the quiz prompt (built from the story and its extracted elements) to the
generation service, modelled by the per-attempt `oracle`; a parse yielding
exactly `n` records is returned, otherwise the synthesizer fallback runs. -/
def gqqAttempts (oracle : Nat -> Str) (R : GameR) (story : Str) (n : Nat) :
    Nat -> List Question
  | 0 => getFallbackQuiz R story n
  | k + 1 =>
    if (parseQuizQuestions (oracle (3 - (k + 1)))).length = n then
      parseQuizQuestions (oracle (3 - (k + 1)))
    else gqqAttempts oracle R story n k

/-- `OllamaStoryQuizGame.generate_quiz_questions(story)` with
`num_questions_per_round = n`: three attempts (indices `0, 1, 2`, counted
down as remaining attempts), then the synthesizer fallback. -/
def generateQuizQuestions (oracle : Nat -> Str) (R : GameR) (story : Str) (n : Nat) :
    List Question :=
  gqqAttempts oracle R story n 3

/-- The number of opening-phrase questions in a list of records. -/
def countOpening (qs : List Question) : Nat :=
  (qs.filter (fun q => q.question == openingQuestionText)).length

/-- The elements map of the spec's Scenario 5: one name, no objects, no
actions (all keys present). -/
def mayaElems : StoryElements :=
  { names := [("Maya").data], actions := [], objects := [], places := [],
    sentences := [], firstSentence := [], storyWords := [] }

/-- A 41-word story of repeated `"z"`: no extractable names, objects,
places or actions, a single sentence, and more than 40 words. -/
def cexStory : Str :=
  ("z z z z z z z z z z z z z z z z z z z z z z z z z z z z z z z z z z z z z z z z z").data

/-- Its elements map (the identity is a realizable `list(set(...))` order;
all the deduplicated lists here are empty or singletons anyway). -/
def cexElems : StoryElements := extractStoryElements id cexStory

/-- A story with two extractable names of different lengths. -/
def twoNameStory : Str := ("Alice met Bartholomew.").data

/-- Concrete whole-game oracle bundle for witnesses. -/
def gameR0 : GameR := ⟨id, defaultGuqR, fun _ => defaultGenR⟩

/-! ### Lemmas about `_safe_sample` -/

theorem sampleTape_length {α : Type} (k : Nat) :
    ∀ (rng : List Nat) (pool : List α), k ≤ pool.length →
      (sampleTape rng pool k).length = k := by
  induction k with
  | zero => intro rng pool _; cases pool <;> simp [sampleTape]
  | succ k ih =>
    intro rng pool hk
    match pool with
    | [] => simp at hk
    | p :: ps =>
      have hlen : 0 < (p :: ps).length := by simp
      have hi : (rng.headD 0) % (p :: ps).length < (p :: ps).length :=
        Nat.mod_lt _ hlen
      have herase : (((p :: ps).eraseIdx ((rng.headD 0) % (p :: ps).length))).length
          = ps.length := by
        rw [List.length_eraseIdx, if_pos hi]; simp
      rw [sampleTape, List.length_cons, ih rng.tail _ (by
        rw [herase]; simp only [List.length_cons] at hk; omega)]

theorem safeSampleFill_length_le (k : Nat) :
    ∀ (l result : List Str), result.length ≤ k →
      (safeSampleFill k result l).length ≤ k := by
  intro l
  induction l with
  | nil => intro result h; simpa [safeSampleFill] using h
  | cons item rest ih =>
    intro result h
    rw [safeSampleFill]
    by_cases h1 : k ≤ result.length
    · simpa [h1] using h
    · rw [if_neg h1]
      by_cases h2 : item ∈ result
      · rw [if_pos h2]; exact ih result h
      · rw [if_neg h2]
        exact ih (result ++ [item]) (by simp; omega)

/-- Claim C1: for every tape, pool, `k` and fallback pool, `_safe_sample`
returns a list of length exactly `k`, including when both pools are empty
(padding with the literal string `"None"` when short). -/
theorem claim_C1_safe_sample_length (rng : List Nat) (pool : List Str)
    (k : Nat) (fallbackPool : List Str) :
    (safeSample rng pool k fallbackPool).length = k := by
  unfold safeSample
  by_cases h : k ≤ (dedupF (pool.filter (fun p => !p.isEmpty && !(stripWs p).isEmpty))).length
  · rw [if_pos h]
    exact sampleTape_length k rng _ h
  · rw [if_neg h]
    have hfill := safeSampleFill_length_le k fallbackPool
      (dedupF (pool.filter (fun p => !p.isEmpty && !(stripWs p).isEmpty))) (by omega)
    simp only [List.length_append, List.length_replicate]
    omega

/-! ### Lemmas about `_normalize_text` -/

theorem charOfNat_toNat (n : Nat) (h : n.isValidChar) : (Char.ofNat n).toNat = n := by
  simp [Char.ofNat, h, Char.toNat, Char.ofNatAux]
  rfl

theorem toLower_toNat (c : Char) :
    (Char.toLower c).toNat =
      if 65 ≤ c.toNat ∧ c.toNat ≤ 90 then c.toNat + 32 else c.toNat := by
  unfold Char.toLower
  split
  · next h =>
    have hv : (c.toNat + 32).isValidChar := by
      left
      omega
    rw [if_pos (by omega : 65 ≤ c.toNat ∧ c.toNat ≤ 90)]
    exact charOfNat_toNat _ hv
  · next h =>
    rw [if_neg (by omega)]

theorem charToNat_inj {a b : Char} (h : a.toNat = b.toNat) : a = b := by
  apply Char.ext
  apply UInt32.ext
  exact h

theorem isWsChar_lowChar (c : Char) : isWsChar (lowChar c) = isWsChar c := by
  rw [Bool.eq_iff_iff]
  simp only [isWsChar, lowChar, toLower_toNat, Bool.or_eq_true, decide_eq_true_eq]
  split <;> omega

theorem keepChar_lowChar (c : Char) : keepChar (lowChar c) = keepChar c := by
  rw [Bool.eq_iff_iff]
  simp only [keepChar, isWordChar, isWsChar, lowChar, toLower_toNat, Bool.or_eq_true,
    Bool.and_eq_true, decide_eq_true_eq]
  split <;> omega

theorem lowChar_of_ws (c : Char) (h : isWsChar c = true) : lowChar c = c := by
  apply charToNat_inj
  rw [lowChar, toLower_toNat]
  simp only [isWsChar, Bool.or_eq_true, decide_eq_true_eq] at h
  rw [if_neg (by omega)]

theorem lowChar_idem (c : Char) : lowChar (lowChar c) = lowChar c := by
  apply charToNat_inj
  simp only [lowChar]
  rw [toLower_toNat (Char.toLower c), toLower_toNat c]
  by_cases hc : 65 ≤ c.toNat ∧ c.toNat ≤ 90
  · simp only [if_pos hc]
    rw [if_neg (by omega)]
  · simp only [if_neg hc]

theorem lowerStr_idem (s : Str) : lowerStr (lowerStr s) = lowerStr s := by
  simp only [lowerStr, List.map_map]
  apply List.map_congr_left
  intro a _
  simp only [Function.comp]
  exact lowChar_idem a

theorem dropWhile_idem (p : Char → Bool) (l : Str) :
    (l.dropWhile p).dropWhile p = l.dropWhile p := by
  induction l with
  | nil => rfl
  | cons c cs ih =>
    by_cases h : p c
    · simp [List.dropWhile_cons, h, ih]
    · simp [List.dropWhile_cons, h]

theorem lstripWs_lowerStr (s : Str) : lstripWs (lowerStr s) = lowerStr (lstripWs s) := by
  have hpred : (isWsChar ∘ lowChar) = isWsChar := by
    funext c
    exact isWsChar_lowChar c
  simp only [lstripWs, lowerStr, List.dropWhile_map, hpred]

theorem rstripWs_lowerStr (s : Str) : rstripWs (lowerStr s) = lowerStr (rstripWs s) := by
  have hpred : (isWsChar ∘ lowChar) = isWsChar := by
    funext c
    exact isWsChar_lowChar c
  simp only [rstripWs, lowerStr, ← List.map_reverse, List.dropWhile_map, hpred]

theorem stripWs_lowerStr (s : Str) : stripWs (lowerStr s) = lowerStr (stripWs s) := by
  rw [stripWs, stripWs, lstripWs_lowerStr, rstripWs_lowerStr]

theorem rstripWs_front (s : Str) : rstripWs s <+: s := by
  have h := List.reverse_prefix.mpr (@List.dropWhile_suffix Char s.reverse isWsChar)
  simpa using h

theorem lstrip_of_prefix {x y : Str} (hx : lstripWs x = x) (hp : y <+: x) :
    lstripWs y = y := by
  cases y with
  | nil => rfl
  | cons c t =>
    obtain ⟨r, hr⟩ := hp
    rw [← hr] at hx
    by_cases h : isWsChar c
    · exfalso
      rw [lstripWs, List.cons_append, List.dropWhile_cons, if_pos h] at hx
      have hlen := congrArg List.length hx
      rw [List.length_cons] at hlen
      have hle :=
        (@List.dropWhile_suffix Char (t ++ r) isWsChar).sublist.length_le
      omega
    · rw [lstripWs, List.dropWhile_cons, if_neg h]

theorem lstripWs_idem (s : Str) : lstripWs (lstripWs s) = lstripWs s := by
  simp only [lstripWs, dropWhile_idem]

theorem rstripWs_idem (s : Str) : rstripWs (rstripWs s) = rstripWs s := by
  simp only [rstripWs, List.reverse_reverse, dropWhile_idem]

theorem stripWs_idem (s : Str) : stripWs (stripWs s) = stripWs s := by
  have h1 : lstripWs (stripWs s) = stripWs s := by
    apply lstrip_of_prefix (x := lstripWs s)
    · exact lstripWs_idem s
    · exact rstripWs_front (lstripWs s)
  rw [show stripWs (stripWs s) = rstripWs (lstripWs (stripWs s)) from rfl, h1,
    show stripWs s = rstripWs (lstripWs s) from rfl, rstripWs_idem]

theorem spacedOk_tail {c : Char} {l : Str} (h : spacedOk (c :: l) = true) :
    spacedOk l = true := by
  cases l with
  | nil => rfl
  | cons d tl =>
    simp only [spacedOk, Bool.and_eq_true] at h
    exact h.2

theorem spacedOk_head {c : Char} {l : Str} (h : spacedOk (c :: l) = true) :
    (!isWsChar c || c = ' ') = true := by
  cases l with
  | nil => simpa [spacedOk] using h
  | cons d tl =>
    simp only [spacedOk, Bool.and_eq_true] at h
    simpa using h.1.1

theorem spacedOk_pair {c d : Char} {l : Str} (h : spacedOk (c :: d :: l) = true) :
    (isWsChar c && isWsChar d) = false := by
  simp only [spacedOk, Bool.and_eq_true] at h
  rcases (by simpa using h.1.2 : isWsChar c = false ∨ isWsChar d = false) with h2 | h2 <;>
    simp [h2]

theorem spacedOk_cons_of (c : Char) (l : Str) (h1 : (!isWsChar c || c = ' ') = true)
    (h2 : isWsChar c = true → headNonWs l = true) (h3 : spacedOk l = true) :
    spacedOk (c :: l) = true := by
  cases l with
  | nil => simpa [spacedOk] using h1
  | cons d tl =>
    simp only [spacedOk, Bool.and_eq_true]
    refine ⟨⟨by simpa using h1, ?_⟩, h3⟩
    by_cases hc : isWsChar c
    · have hd := h2 hc
      simp only [headNonWs] at hd
      simp [hc, hd]
    · simp [hc]

theorem collapse_spacedOk (l : Str) :
    spacedOk (collapseAux false l) = true ∧ spacedOk (collapseAux true l) = true ∧
      headNonWs (collapseAux true l) = true := by
  induction l with
  | nil => exact ⟨rfl, rfl, rfl⟩
  | cons c cs ih =>
    obtain ⟨ih1, ih2, ih3⟩ := ih
    by_cases h : isWsChar c
    · refine ⟨?_, ?_, ?_⟩
      · rw [collapseAux, if_pos h]
        simp only [Bool.false_eq_true, if_false]
        apply spacedOk_cons_of
        · simp
        · intro _
          exact ih3
        · exact ih2
      · rw [collapseAux, if_pos h]
        simp only [if_true]
        exact ih2
      · rw [collapseAux, if_pos h]
        simp only [if_true]
        exact ih3
    · refine ⟨?_, ?_, ?_⟩
      · rw [collapseAux, if_neg h]
        apply spacedOk_cons_of
        · simp [h]
        · intro hc
          exact absurd hc (by simp [h])
        · exact ih1
      · rw [collapseAux, if_neg h]
        apply spacedOk_cons_of
        · simp [h]
        · intro hc
          exact absurd hc (by simp [h])
        · exact ih1
      · rw [collapseAux, if_neg h]
        simp [headNonWs, h]

theorem spacedOk_dropWhile (p : Char → Bool) (l : Str) (h : spacedOk l = true) :
    spacedOk (l.dropWhile p) = true := by
  induction l with
  | nil => exact h
  | cons c cs ih =>
    rw [List.dropWhile_cons]
    by_cases hp : p c
    · rw [if_pos hp]
      exact ih (spacedOk_tail h)
    · rw [if_neg hp]
      exact h

theorem spacedOk_append_left (l₁ l₂ : Str) (h : spacedOk (l₁ ++ l₂) = true) :
    spacedOk l₁ = true := by
  induction l₁ with
  | nil => rfl
  | cons c cs ih =>
    cases cs with
    | nil =>
      have hh := spacedOk_head (c := c) (l := l₂) (by simpa using h)
      simpa [spacedOk] using hh
    | cons d tl =>
      have h' : spacedOk (c :: d :: (tl ++ l₂)) = true := by simpa using h
      have htail : spacedOk (d :: tl) = true := by
        apply ih
        simpa using spacedOk_tail h'
      simp only [spacedOk, Bool.and_eq_true] at h' ⊢
      exact ⟨h'.1, htail⟩

theorem spacedOk_rstrip (l : Str) (h : spacedOk l = true) :
    spacedOk (rstripWs l) = true := by
  obtain ⟨r, hr⟩ := rstripWs_front l
  exact spacedOk_append_left _ r (by rw [hr]; exact h)

theorem spacedOk_strip (l : Str) (h : spacedOk l = true) :
    spacedOk (stripWs l) = true :=
  spacedOk_rstrip _ (spacedOk_dropWhile _ _ h)

theorem spacedOk_lowerStr (l : Str) (h : spacedOk l = true) :
    spacedOk (lowerStr l) = true := by
  induction l with
  | nil => rfl
  | cons c cs ih =>
    have htail := ih (spacedOk_tail h)
    apply spacedOk_cons_of
    · by_cases hc : isWsChar c
      · rw [lowChar_of_ws c hc]
        exact spacedOk_head h
      · simp [isWsChar_lowChar, hc]
    · intro hws
      rw [isWsChar_lowChar] at hws
      cases cs with
      | nil => rfl
      | cons d tl =>
        have hp := spacedOk_pair h
        simp only [hws, Bool.true_and] at hp
        simp [lowerStr, headNonWs, isWsChar_lowChar, hp]
    · exact htail

theorem collapse_id_of_spacedOk (l : Str) (h : spacedOk l = true) :
    collapseAux false l = l ∧ (headNonWs l = true → collapseAux true l = l) := by
  induction l with
  | nil => exact ⟨rfl, fun _ => rfl⟩
  | cons c cs ih =>
    obtain ⟨ih1, ih2⟩ := ih (spacedOk_tail h)
    by_cases hc : isWsChar c
    · have hsp : c = ' ' := by
        have hh := spacedOk_head h
        simpa [hc] using hh
      have hhead : headNonWs cs = true := by
        cases cs with
        | nil => rfl
        | cons d tl =>
          have hp := spacedOk_pair h
          simp only [hc, Bool.true_and] at hp
          simp [headNonWs, hp]
      constructor
      · rw [collapseAux, if_pos hc]
        simp only [Bool.false_eq_true, if_false]
        rw [ih2 hhead, hsp]
      · intro hfalse
        rw [headNonWs, hc] at hfalse
        simp at hfalse
    · constructor
      · rw [collapseAux, if_neg hc, ih1]
      · intro _
        rw [collapseAux, if_neg hc, ih1]

theorem collapse_chars : ∀ (b : Bool) (l : Str), ∀ c ∈ collapseAux b l, c = ' ' ∨ c ∈ l := by
  intro b l
  induction l generalizing b with
  | nil => intro c hc; simp [collapseAux] at hc
  | cons d ds ih =>
    intro c hc
    rw [collapseAux] at hc
    by_cases hd : isWsChar d
    · rw [if_pos hd] at hc
      by_cases hb : b
      · rw [if_pos hb] at hc
        rcases ih true c hc with h | h
        · exact Or.inl h
        · exact Or.inr (List.mem_cons_of_mem _ h)
      · rw [if_neg hb] at hc
        rcases List.mem_cons.mp hc with h | h
        · exact Or.inl h
        · rcases ih true c h with h2 | h2
          · exact Or.inl h2
          · exact Or.inr (List.mem_cons_of_mem _ h2)
    · rw [if_neg hd] at hc
      rcases List.mem_cons.mp hc with h | h
      · exact Or.inr (h ▸ List.mem_cons_self _ _)
      · rcases ih false c h with h2 | h2
        · exact Or.inl h2
        · exact Or.inr (List.mem_cons_of_mem _ h2)

theorem stripWs_subset (x : Str) : stripWs x ⊆ x := by
  intro c hc
  have h1 : c ∈ lstripWs x :=
    (rstripWs_front (lstripWs x)).sublist.subset hc
  exact (@List.dropWhile_suffix Char x isWsChar).sublist.subset h1

theorem cleanText_chars (s : Str) : ∀ c ∈ cleanText s, keepChar c = true := by
  intro c hc
  unfold cleanText at hc
  simp only [lowerStr, List.mem_map] at hc
  obtain ⟨d, hd, rfl⟩ := hc
  rw [keepChar_lowChar]
  have hd2 : d ∈ collapseWs ((stripWs s).filter keepChar) := stripWs_subset _ hd
  rcases collapse_chars false _ d hd2 with h | h
  · rw [h]
    decide
  · exact List.of_mem_filter h

theorem cleanText_spacedOk (s : Str) : spacedOk (cleanText s) = true := by
  unfold cleanText
  apply spacedOk_lowerStr
  apply spacedOk_strip
  exact (collapse_spacedOk _).1

theorem cleanText_fixed (t : Str) (hchars : ∀ c ∈ t, keepChar c = true)
    (hspaced : spacedOk t = true) (hstrip : stripWs t = t) (hlower : lowerStr t = t) :
    cleanText t = t := by
  unfold cleanText
  rw [hstrip, List.filter_eq_self.mpr hchars,
    show collapseWs t = t from (collapse_id_of_spacedOk t hspaced).1, hstrip, hlower]

theorem cleanText_strip (s : Str) : stripWs (cleanText s) = cleanText s := by
  unfold cleanText
  rw [stripWs_lowerStr, stripWs_idem]

theorem cleanText_lower (s : Str) : lowerStr (cleanText s) = cleanText s := by
  unfold cleanText
  exact lowerStr_idem _

theorem cleanText_idem (s : Str) : cleanText (cleanText s) = cleanText s :=
  cleanText_fixed _ (cleanText_chars s) (cleanText_spacedOk s) (cleanText_strip s)
    (cleanText_lower s)

/-! ### Claim C2: parser record validity -/

theorem parseBlock_sound (block : List Str) (q : Question)
    (h : parseBlock block = some q) :
    q.question ≠ [] ∧ numOptions q.options = 4 ∧
      (getOpt q.options q.correct).isSome = true := by
  unfold parseBlock at h
  split at h
  · exact absurd h (by simp)
  · split at h
    · exact absurd h (by simp)
    · split at h
      · next hcond =>
        cases h
        exact hcond
      · exact absurd h (by simp)

/-- Claim C2: every question record returned by `parse_quiz_questions` has
non-empty question text, an options mapping with exactly 4 distinct keys,
and a correct letter that is one of those keys; blocks failing the guard
contribute no record. -/
theorem claim_C2_parser_record_validity (txt : Str) (q : Question)
    (h : q ∈ parseQuizQuestions txt) :
    q.question ≠ [] ∧ numOptions q.options = 4 ∧
      (getOpt q.options q.correct).isSome = true := by
  unfold parseQuizQuestions at h
  split at h
  · simp at h
  · obtain ⟨b, _, hb⟩ := List.mem_filterMap.mp h
    exact parseBlock_sound b q hb

/-- Witness for C2 at the spec's Scenario 1 input. -/
theorem claim_C2_witness :
    scenario1Record ∈ parseQuizQuestions scenario1Text ∧
      (scenario1Record.question ≠ [] ∧ numOptions scenario1Record.options = 4 ∧
        (getOpt scenario1Record.options scenario1Record.correct).isSome = true) :=
  ⟨by decide, claim_C2_parser_record_validity scenario1Text scenario1Record (by decide)⟩

/-! ### Claim C3: normalization idempotence -/

theorem normalizeText_eq_clean (s : Str)
    (h1 : strEnds (cleanText s) (("ed").data) = false)
    (h2 : strEnds (cleanText s) (("ing").data) = false) :
    normalizeText s = cleanText s := by
  unfold normalizeText
  by_cases hs : s.isEmpty
  · cases s with
    | nil => rfl
    | cons c t => simp [List.isEmpty] at hs
  · rw [if_neg (by simpa using hs)]
    simp only [h1, h2, Bool.false_eq_true, if_false]

/-- Claim C3 (amended): `_normalize_text` is idempotent at every string whose
canonicalized form does not end in `"ed"` or `"ing"`; the unconditional
claim fails because the fallback suffix strip is not closed under itself. -/
theorem claim_C3_normalize_idempotent (s : Str)
    (h1 : strEnds (cleanText s) (("ed").data) = false)
    (h2 : strEnds (cleanText s) (("ing").data) = false) :
    normalizeText (normalizeText s) = normalizeText s := by
  rw [normalizeText_eq_clean s h1 h2]
  have hc := cleanText_idem s
  rw [normalizeText_eq_clean (cleanText s) (by rw [hc]; exact h1)
    (by rw [hc]; exact h2), hc]

/-- Witness for the amended C3 at a concrete input. -/
theorem claim_C3_witness :
    strEnds (cleanText (("Hello,  World!").data)) (("ed").data) = false ∧
      strEnds (cleanText (("Hello,  World!").data)) (("ing").data) = false ∧
      normalizeText (normalizeText (("Hello,  World!").data)) =
        normalizeText (("Hello,  World!").data) :=
  ⟨by decide, by decide,
    claim_C3_normalize_idempotent (("Hello,  World!").data) (by decide) (by decide)⟩

/-- Counterexample to C3 as stated: `"singing"` normalizes to `"sing"`,
which normalizes again to `"s"`. -/
theorem claim_C3_counterexample :
    normalizeText (normalizeText (("singing").data)) ≠
      normalizeText (("singing").data) := by
  decide

/-! ### Claim C4: the truncation law -/

theorem splitWsAux_words : ∀ (l acc : Str), (∀ c ∈ acc, isWsChar c = false) →
    ∀ w ∈ splitWsAux l acc, w ≠ [] ∧ ∀ c ∈ w, isWsChar c = false := by
  intro l
  induction l with
  | nil =>
    intro acc hacc w hw
    rw [splitWsAux] at hw
    by_cases ha : acc.isEmpty
    · rw [if_pos ha] at hw
      simp at hw
    · rw [if_neg ha] at hw
      simp only [List.mem_singleton] at hw
      subst hw
      refine ⟨by simpa [List.isEmpty_iff] using ha, ?_⟩
      intro c hc
      exact hacc c (List.mem_reverse.mp hc)
  | cons c cs ih =>
    intro acc hacc w hw
    rw [splitWsAux] at hw
    by_cases hc : isWsChar c
    · rw [if_pos hc] at hw
      by_cases ha : acc.isEmpty
      · rw [if_pos ha] at hw
        exact ih [] (by simp) w hw
      · rw [if_neg ha] at hw
        rcases List.mem_cons.mp hw with h | h
        · subst h
          refine ⟨by simpa [List.isEmpty_iff] using ha, ?_⟩
          intro d hd
          exact hacc d (List.mem_reverse.mp hd)
        · exact ih [] (by simp) w h
    · rw [if_neg hc] at hw
      apply ih (c :: acc) _ w hw
      intro d hd
      rcases List.mem_cons.mp hd with h | h
      · subst h
        simpa using hc
      · exact hacc d h

theorem splitWsAux_pos : ∀ (l acc : Str), acc ≠ [] → 1 ≤ (splitWsAux l acc).length := by
  intro l
  induction l with
  | nil =>
    intro acc ha
    rw [splitWsAux, if_neg (by simpa [List.isEmpty_iff] using ha)]
    simp
  | cons c cs ih =>
    intro acc ha
    rw [splitWsAux]
    by_cases hc : isWsChar c
    · rw [if_pos hc, if_neg (by simpa [List.isEmpty_iff] using ha)]
      simp
    · rw [if_neg hc]
      exact ih (c :: acc) (by simp)

theorem splitWsAux_take_le : ∀ (l acc : Str) (m : Nat),
    (splitWsAux (l.take m) acc).length ≤ (splitWsAux l acc).length := by
  intro l
  induction l with
  | nil =>
    intro acc m
    simp [List.take_nil]
  | cons c cs ih =>
    intro acc m
    cases m with
    | zero =>
      simp only [List.take_zero]
      rw [splitWsAux]
      by_cases ha : acc.isEmpty
      · rw [if_pos ha]
        simp
      · rw [if_neg ha]
        have := splitWsAux_pos (c :: cs) acc (by simpa [List.isEmpty_iff] using ha)
        simpa using this
    | succ m =>
      simp only [List.take_succ_cons]
      rw [splitWsAux, splitWsAux]
      by_cases hc : isWsChar c
      · rw [if_pos hc, if_pos hc]
        by_cases ha : acc.isEmpty
        · rw [if_pos ha, if_pos ha]
          exact ih [] m
        · rw [if_neg ha, if_neg ha]
          simpa using ih [] m
      · rw [if_neg hc, if_neg hc]
        exact ih (c :: acc) m

theorem splitWsAux_append (w : Str) : ∀ (r acc : Str), (∀ c ∈ w, isWsChar c = false) →
    splitWsAux (w ++ r) acc = splitWsAux r (w.reverse ++ acc) := by
  induction w with
  | nil =>
    intro r acc _
    simp
  | cons c cs ih =>
    intro r acc hw
    have hc : isWsChar c = false := hw c (by simp)
    rw [List.cons_append, splitWsAux, if_neg (by simp [hc])]
    rw [ih r (c :: acc) (fun d hd => hw d (by simp [hd]))]
    simp

theorem pySplitWs_joinSpace : ∀ (ws : List Str),
    (∀ w ∈ ws, w ≠ [] ∧ ∀ c ∈ w, isWsChar c = false) →
    pySplitWs (joinSpace ws) = ws := by
  intro ws
  induction ws with
  | nil => intro _; rfl
  | cons w rest ih =>
    intro h
    cases rest with
    | nil =>
      have happ := splitWsAux_append w [] [] (h w (by simp)).2
      simp only [List.append_nil] at happ
      rw [show joinSpace [w] = w from rfl, pySplitWs, happ, splitWsAux,
        if_neg (by simpa [List.isEmpty_iff] using (h w (by simp)).1)]
      simp
    | cons w2 rest2 =>
      have happ := splitWsAux_append w (' ' :: joinSpace (w2 :: rest2)) []
        (h w (by simp)).2
      rw [pySplitWs,
        show joinSpace (w :: w2 :: rest2) = w ++ ' ' :: joinSpace (w2 :: rest2) from rfl,
        happ, splitWsAux, if_pos (by decide : isWsChar ' ' = true),
        if_neg (by simpa [List.isEmpty_iff] using (h w (by simp)).1)]
      simp only [List.append_nil, List.reverse_reverse]
      rw [show splitWsAux (joinSpace (w2 :: rest2)) [] = pySplitWs (joinSpace (w2 :: rest2)) from rfl,
        ih (fun x hx => h x (by simp [hx]))]

theorem pySplitWs_joinSpace_dots (d : Str) (hd1 : d ≠ [])
    (hd2 : ∀ c ∈ d, isWsChar c = false) : ∀ (ws : List Str), ws ≠ [] →
    (∀ w ∈ ws, w ≠ [] ∧ ∀ c ∈ w, isWsChar c = false) →
    (pySplitWs (joinSpace ws ++ d)).length = ws.length := by
  intro ws
  induction ws with
  | nil => intro h _; exact absurd rfl h
  | cons w rest ih =>
    intro _ h
    cases rest with
    | nil =>
      have happ := splitWsAux_append w d [] (h w (by simp)).2
      rw [show joinSpace [w] = w from rfl, pySplitWs, happ]
      have happ2 := splitWsAux_append d [] (w.reverse ++ []) hd2
      simp only [List.append_nil] at happ2 ⊢
      rw [happ2, splitWsAux,
        if_neg (by
          simp only [List.isEmpty_iff, List.append_eq_nil]
          intro hx
          exact absurd (List.reverse_eq_nil_iff.mp hx.1) hd1)]
      simp
    | cons w2 rest2 =>
      have happ := splitWsAux_append w (' ' :: (joinSpace (w2 :: rest2) ++ d)) []
        (h w (by simp)).2
      rw [pySplitWs,
        show joinSpace (w :: w2 :: rest2) ++ d =
          w ++ ' ' :: (joinSpace (w2 :: rest2) ++ d) from by
          rw [show joinSpace (w :: w2 :: rest2) = w ++ ' ' :: joinSpace (w2 :: rest2) from rfl]
          simp,
        happ, splitWsAux, if_pos (by decide : isWsChar ' ' = true),
        if_neg (by simpa [List.isEmpty_iff] using (h w (by simp)).1)]
      simp only [List.length_cons]
      rw [show splitWsAux (joinSpace (w2 :: rest2) ++ d) [] =
        pySplitWs (joinSpace (w2 :: rest2) ++ d) from rfl,
        ih (by simp) (fun x hx => h x (by simp [hx]))]
      rfl

theorem dropWhile_ne_head (m : Str) (h : ('.' : Char) ∈ m) :
    ∃ t, m.dropWhile (fun c => c ≠ '.') = '.' :: t := by
  induction m with
  | nil => simp at h
  | cons c cs ih =>
    by_cases hc : c = '.'
    · subst hc
      exact ⟨cs, by simp [List.dropWhile_cons]⟩
    · rw [List.dropWhile_cons, if_pos (by simpa using hc)]
      apply ih
      rcases List.mem_cons.mp h with h1 | h1
      · exact absurd h1.symm hc
      · exact h1

theorem truncAtLastDot_front (l : Str) : truncAtLastDot l <+: l := by
  have h := List.reverse_prefix.mpr
    (@List.dropWhile_suffix Char l.reverse (fun c => c ≠ '.'))
  simpa [truncAtLastDot] using h

theorem truncAtLastDot_ends (l : Str) (h : ('.' : Char) ∈ l) :
    ∃ u, truncAtLastDot l = u ++ ['.'] := by
  obtain ⟨t, ht⟩ := dropWhile_ne_head l.reverse (List.mem_reverse.mpr h)
  exact ⟨t.reverse, by rw [truncAtLastDot, ht]; simp⟩

theorem wordCount_prefix_le {x y : Str} (h : x <+: y) : wordCount x ≤ wordCount y := by
  rw [List.prefix_iff_eq_take] at h
  rw [wordCount, wordCount, pySplitWs, pySplitWs, h]
  exact splitWsAux_take_le y [] x.length

/-- Claim C4 (amended to `word_limit ≥ 1`): a story with at most
`word_limit` words is returned unchanged; a longer story is truncated to at
most `word_limit` words, and the result either ends exactly at a `'.'`
(when one occurs among the first `word_limit` words) or is the
`word_limit`-word prefix with `"..."` appended (only when no `'.'` occurs
there).  The case `word_limit = 0` is excluded by the counterexample. -/
theorem claim_C4_truncation_law (story : Str) (wordLimit : Nat) (hN : 1 ≤ wordLimit) :
    (wordCount story ≤ wordLimit → truncateStory story wordLimit = story) ∧
    (wordLimit < wordCount story →
      wordCount (truncateStory story wordLimit) ≤ wordLimit ∧
      ((('.' : Char) ∈ joinSpace ((pySplitWs story).take wordLimit) ∧
        ∃ u, truncateStory story wordLimit = u ++ ['.']) ∨
       (('.' : Char) ∉ joinSpace ((pySplitWs story).take wordLimit) ∧
        truncateStory story wordLimit =
          joinSpace ((pySplitWs story).take wordLimit) ++ ("...").data))) := by
  constructor
  · intro hle
    rw [wordCount] at hle
    rw [truncateStory, if_pos hle]
  · intro hgt
    have hwords : ∀ w ∈ (pySplitWs story).take wordLimit,
        w ≠ [] ∧ ∀ c ∈ w, isWsChar c = false := by
      intro w hw
      exact splitWsAux_words story [] (by simp) w ((List.take_sublist _ _).subset hw)
    have hjoin : pySplitWs (joinSpace ((pySplitWs story).take wordLimit)) =
        (pySplitWs story).take wordLimit := pySplitWs_joinSpace _ hwords
    have hlen_take : ((pySplitWs story).take wordLimit).length = wordLimit := by
      rw [List.length_take]
      rw [wordCount] at hgt
      omega
    rw [truncateStory, if_neg (by rw [wordCount] at hgt; omega)]
    by_cases hdot : ('.' : Char) ∈ joinSpace ((pySplitWs story).take wordLimit)
    · rw [if_pos hdot]
      refine ⟨?_, Or.inl ⟨hdot, truncAtLastDot_ends _ hdot⟩⟩
      have h1 : wordCount (truncAtLastDot (joinSpace ((pySplitWs story).take wordLimit))) ≤
          wordCount (joinSpace ((pySplitWs story).take wordLimit)) :=
        wordCount_prefix_le (truncAtLastDot_front _)
      have h2 : wordCount (joinSpace ((pySplitWs story).take wordLimit)) = wordLimit := by
        rw [wordCount, hjoin, hlen_take]
      omega
    · rw [if_neg hdot]
      refine ⟨?_, Or.inr ⟨hdot, rfl⟩⟩
      have hne : (pySplitWs story).take wordLimit ≠ [] := by
        intro hx
        rw [hx] at hlen_take
        simp at hlen_take
        omega
      rw [wordCount, pySplitWs_joinSpace_dots (("...").data) (by decide) (by decide)
        _ hne hwords, hlen_take]

/-- Witness for the amended C4 at a concrete input (no dot among the first
word, so the `"..."` branch is taken). -/
theorem claim_C4_witness :
    (1 : Nat) ≤ 1 ∧ 1 < wordCount (("hello world.").data) ∧
      wordCount (truncateStory (("hello world.").data) 1) ≤ 1 ∧
      ((('.' : Char) ∈ joinSpace ((pySplitWs (("hello world.").data)).take 1) ∧
        ∃ u, truncateStory (("hello world.").data) 1 = u ++ ['.']) ∨
       (('.' : Char) ∉ joinSpace ((pySplitWs (("hello world.").data)).take 1) ∧
        truncateStory (("hello world.").data) 1 =
          joinSpace ((pySplitWs (("hello world.").data)).take 1) ++ ("...").data)) :=
  ⟨by decide, by decide,
    ((claim_C4_truncation_law (("hello world.").data) 1 (by decide)).2 (by decide)).1,
    ((claim_C4_truncation_law (("hello world.").data) 1 (by decide)).2 (by decide)).2⟩

/-- Counterexample to C4 as stated: with `word_limit = 0` and a nonempty
story, the code returns `"..."`, which has one word, exceeding the claimed
bound of `0` words. -/
theorem claim_C4_counterexample :
    ¬ (wordCount (truncateStory (("a b").data) 0) ≤ 0) := by
  decide

/-! ### Totality of the contextual fallback and length of the orchestrator -/

theorem ctx_isSome (story : Str) (e : StoryElements) (R : GenR) (used : List Str) :
    (createContextualQuestion story e R used).1.isSome = true := by
  simp only [createContextualQuestion]
  split
  · simp
  · split
    · simp
    · split <;> simp

theorem bankFold_le (story : Str) (e : StoryElements) (R : GuqR) (n : Nat) :
    ∀ (gens : List GenId) (qs : List Question) (used : List Str), qs.length ≤ n →
      (bankFold story e R n gens (qs, used)).1.length ≤ n := by
  intro gens
  induction gens with
  | nil => intro qs used h; exact h
  | cons g gs ih =>
    intro qs used h
    rw [bankFold]
    by_cases hstop : n ≤ qs.length
    · rw [if_pos hstop]
      exact h
    · rw [if_neg hstop]
      cases hg : runGen g story e (R.genR g) used with
      | error _ => exact ih qs used h
      | ok res =>
        cases res with
        | mk qopt used1 =>
          cases qopt with
          | none => exact ih qs used1 h
          | some q =>
            apply ih
            simp only [List.length_append, List.length_cons, List.length_nil]
            omega

theorem fillCtx_length (story : Str) (e : StoryElements) (R : GuqR) (n : Nat) :
    ∀ (fuel i : Nat) (qs : List Question) (used : List Str), qs.length ≤ n →
      (fillCtx story e R n i fuel (qs, used)).1.length = min n (qs.length + fuel) := by
  intro fuel
  induction fuel with
  | zero =>
    intro i qs used h
    exact (show qs.length = min n (qs.length + 0) by omega)
  | succ fuel ih =>
    intro i qs used h
    rw [fillCtx]
    by_cases hstop : n ≤ qs.length
    · rw [if_pos hstop]
      exact (show qs.length = min n (qs.length + (fuel + 1)) by omega)
    · rw [if_neg hstop]
      cases hctx : createContextualQuestion story e (R.ctxR i) used with
      | mk qopt used1 =>
        cases qopt with
        | none =>
          have hsome := ctx_isSome story e (R.ctxR i) used
          rw [hctx] at hsome
          simp at hsome
        | some q =>
          have hrec := ih (i + 1) (qs ++ [q]) used1
            (by simp only [List.length_append, List.length_cons, List.length_nil]; omega)
          simp only [List.length_append, List.length_cons, List.length_nil] at hrec
          rw [hrec]
          omega

theorem guqExactLength (story : Str) (e : StoryElements) (R : GuqR) (n : Nat) :
    (generateUniqueQuestions story e R n).length = n := by
  unfold generateUniqueQuestions
  rcases hst : bankFold story e R n (shuffleTape R.bankShuffle bankList) ([], []) with
    ⟨qs1, used1⟩
  have h1 : qs1.length ≤ n := by
    have := bankFold_le story e R n (shuffleTape R.bankShuffle bankList) [] []
      (by simp)
    rw [hst] at this
    exact this
  have h2 := fillCtx_length story e R n n 0 qs1 used1 h1
  rcases hst2 : fillCtx story e R n 0 n (qs1, used1) with ⟨qs2, used2⟩
  have h2b : qs2.length = min n (qs1.length + n) := by
    rw [hst2] at h2
    exact h2
  show (List.take n (List.map cleanupQuestion
    (List.take n (fillCtx story e R n 0 n (qs1, used1)).1))).length = n
  rw [hst2]
  show (List.take n (List.map cleanupQuestion (List.take n qs2))).length = n
  simp only [List.length_take, List.length_map]
  omega

/-- Claim C9: the orchestrator returns at most `n` records for every story,
elements map, tape bundle and target count; the strategy loop is bounded by
the bank size and the fill loop is modelled by the decreasing measure
`n - len(questions)` (it appends one record per iteration or stops), so the
function is total. -/
theorem claim_C9_synthesizer_bounded (story : Str) (e : StoryElements) (R : GuqR)
    (n : Nat) : (generateUniqueQuestions story e R n).length ≤ n := by
  unfold generateUniqueQuestions
  simp only [List.length_take, List.length_map]
  omega

/-- Claim C10: `create_contextual_question` always returns a record (its
final generic True/False branch is unconditional), and consequently
`generate_unique_questions` returns exactly `n` records for every input,
including the empty story. -/
theorem claim_C10_contextual_total :
    (∀ (story : Str) (e : StoryElements) (R : GenR) (used : List Str),
      (createContextualQuestion story e R used).1.isSome = true) ∧
    (∀ (story : Str) (e : StoryElements) (R : GuqR) (n : Nat),
      (generateUniqueQuestions story e R n).length = n) :=
  ⟨ctx_isSome, guqExactLength⟩

/-- Claim C7: on Scenario 5 elements (`names=["Maya"]`, `objects=[]`,
`actions=[]`) the true/false generator raises `IndexError` (the
`elements.get('objects', [None])[0]` slip) instead of returning `None`
without raising, while the orchestrator, which swallows the exception,
still returns the requested number of records. -/
theorem claim_C7_true_false_raises :
    (∀ (story : Str) (R : GenR) (used : List Str),
      qTrueFalse story mayaElems R used = .error PyExn.indexError) ∧
    (∀ (story : Str) (R : GuqR) (n : Nat),
      (generateUniqueQuestions story mayaElems R n).length = n) :=
  ⟨fun _ _ _ => rfl, fun story R n => guqExactLength story mayaElems R n⟩

/-- Claim C5: the `names` field always has at most 5 entries, but it is not
sorted by descending length: the source sorts and then re-wraps the sorted
list in `set()` (`list(set(names))[:5]`), so the order is the
hash-randomized set iteration order.  `List.reverse` is one realizable
iteration order of a two-element set; under it the extracted names come out
shortest-first. -/
theorem claim_C5_names_cap_and_order :
    (∀ (setOrder : List Str → List Str) (story : Str),
      (extractStoryElements setOrder story).names.length ≤ 5) ∧
    (extractStoryElements List.reverse twoNameStory).names =
      [("Alice").data, ("Bartholomew").data] ∧
    isSortedLenDesc (extractStoryElements List.reverse twoNameStory).names = false :=
  ⟨fun setOrder story => by
      simp only [extractStoryElements, extractNames]
      simp [List.length_take],
    by decide, by decide⟩

/-! ### Claim C8: AI path vs synthesizer fallback -/

/-- Claim C8: `generate_quiz_questions` returns parsed AI output exactly
when some attempt parses to exactly `n` records (the first such attempt
wins); when all three attempts mismatch, it returns `get_fallback_quiz`. -/
theorem claim_C8_parse_or_fallback (oracle : Nat → Str) (R : GameR) (story : Str)
    (n : Nat) :
    ((∀ i, i < 3 → (parseQuizQuestions (oracle i)).length ≠ n) →
      generateQuizQuestions oracle R story n = getFallbackQuiz R story n) ∧
    (∀ i, i < 3 → (parseQuizQuestions (oracle i)).length = n →
      (∀ j, j < i → (parseQuizQuestions (oracle j)).length ≠ n) →
      generateQuizQuestions oracle R story n = parseQuizQuestions (oracle i)) := by
  constructor
  · intro h
    simp only [generateQuizQuestions, gqqAttempts]
    norm_num [h 0 (by omega), h 1 (by omega), h 2 (by omega)]
  · intro i hi hh hprev
    interval_cases i
    · simp only [generateQuizQuestions, gqqAttempts]
      norm_num [hh]
    · simp only [generateQuizQuestions, gqqAttempts]
      norm_num [hh, hprev 0 (by omega)]
    · simp only [generateQuizQuestions, gqqAttempts]
      norm_num [hh, hprev 0 (by omega), hprev 1 (by omega)]

/-- Witness for C8: an oracle answering the empty string on every attempt
never parses to 3 records, so the call returns the synthesizer fallback. -/
theorem claim_C8_witness :
    (∀ i, i < 3 → (parseQuizQuestions ((fun _ => ([] : Str)) i)).length ≠ 3) ∧
    generateQuizQuestions (fun _ => ([] : Str)) gameR0 [] 3 =
      getFallbackQuiz gameR0 [] 3 :=
  ⟨by decide, (claim_C8_parse_or_fallback (fun _ => ([] : Str)) gameR0 [] 3).1 (by decide)⟩

/-! ### Claim C6: the used-elements discipline -/

theorem pyChoice_mem (r : Nat) (l : List Str) (h : l ≠ []) : pyChoice r l ∈ l := by
  have hlen : 0 < l.length := List.length_pos.mpr h
  have hi : r % l.length < l.length := Nat.mod_lt _ hlen
  rw [pyChoice, List.getD_eq_getElem?_getD, List.getElem?_eq_getElem hi]
  simp only [Option.getD_some]
  exact List.getElem_mem hi

theorem setInsert_mem (x : Str) (s : List Str) : x ∈ setInsert x s := by
  rw [setInsert]
  split
  · assumption
  · exact List.mem_cons_self _ _

theorem tf_ne_opening (t : Str) :
    ("True or False: ").data ++ t ≠ openingQuestionText := by
  intro h
  have h5 := congrArg (List.take 5) h
  rw [List.take_append_of_le_length (by decide)] at h5
  exact absurd h5 (by decide)

theorem why_ne_opening (t : Str) :
    ("Why did ").data ++ t ≠ openingQuestionText := by
  intro h
  have h4 := congrArg (List.take 4) h
  rw [List.take_append_of_le_length (by decide)] at h4
  exact absurd h4 (by decide)

theorem what_ne_opening (t : Str) :
    ("What is the most likely reason ").data ++ t ≠ openingQuestionText := by
  intro h
  have h5 := congrArg (List.take 5) h
  rw [List.take_append_of_le_length (by decide)] at h5
  exact absurd h5 (by decide)

theorem runGen_no_opening (g : GenId) (story : Str) (e : StoryElements) (R : GenR)
    (used used1 : List Str) (q : Question)
    (h : runGen g story e R used = .ok (some q, used1)) :
    q.question ≠ openingQuestionText := by
  cases g
  case gName =>
    simp only [runGen, qName] at h
    repeat' split at h
    all_goals first
      | (simp at h
         done)
      | (simp only [Except.ok.injEq, Prod.mk.injEq, Option.some.injEq] at h
         rw [← h.1]
         exact (by decide : ∀ x ∈ qNameTexts, x ≠ openingQuestionText) _
           (pyChoice_mem R.choiceR qNameTexts (by decide)))
  case gAction =>
    simp only [runGen, qAction] at h
    repeat' split at h
    all_goals first
      | (simp at h
         done)
      | (simp only [Except.ok.injEq, Prod.mk.injEq, Option.some.injEq] at h
         rw [← h.1]
         exact (by decide : ∀ x ∈ qActionTexts, x ≠ openingQuestionText) _
           (pyChoice_mem R.choiceR qActionTexts (by decide)))
  case gObject =>
    simp only [runGen, qObject] at h
    repeat' split at h
    all_goals first
      | (simp at h
         done)
      | (simp only [Except.ok.injEq, Prod.mk.injEq, Option.some.injEq] at h
         rw [← h.1]
         exact (by decide : ∀ x ∈ qObjectTexts, x ≠ openingQuestionText) _
           (pyChoice_mem R.choiceR qObjectTexts (by decide)))
  case gPlace =>
    simp only [runGen, qPlace] at h
    repeat' split at h
    all_goals first
      | (simp at h
         done)
      | (simp only [Except.ok.injEq, Prod.mk.injEq, Option.some.injEq] at h
         rw [← h.1]
         exact (by decide : ∀ x ∈ qPlaceTexts, x ≠ openingQuestionText) _
           (pyChoice_mem R.choiceR qPlaceTexts (by decide)))
  case gSequence =>
    simp only [runGen, qSequence] at h
    repeat' split at h
    all_goals first
      | (simp at h
         done)
      | (simp only [Except.ok.injEq, Prod.mk.injEq, Option.some.injEq] at h
         rw [← h.1]
         exact (by decide : ∀ x ∈ qSequenceTexts, x ≠ openingQuestionText) _
           (pyChoice_mem R.choiceR qSequenceTexts (by decide)))
  case gTrueFalse =>
    simp only [runGen, qTrueFalse] at h
    repeat' split at h
    all_goals first
      | (simp at h
         done)
      | (simp only [Except.ok.injEq, Prod.mk.injEq, Option.some.injEq] at h
         rw [← h.1]
         exact tf_ne_opening _)
  case gNotMentioned =>
    simp only [runGen, qNotMentioned] at h
    repeat' split at h
    all_goals first
      | (simp at h
         done)
      | (simp only [Except.ok.injEq, Prod.mk.injEq, Option.some.injEq] at h
         rw [← h.1]
         exact (by decide : ∀ x ∈ qNotmTexts, x ≠ openingQuestionText) _
           (pyChoice_mem R.choiceR qNotmTexts (by decide)))
  case gInference =>
    simp only [runGen, qInference] at h
    repeat' split at h
    all_goals first
      | (simp at h
         done)
      | (simp only [Except.ok.injEq, Prod.mk.injEq, Option.some.injEq] at h
         rw [← h.1]
         rcases List.mem_cons.mp (pyChoice_mem R.choiceR _
           (List.cons_ne_nil (("Why did ").data ++ _ ++
             (" do what they did in the story?").data) _)) with h1 | h1
         · rw [h1]
           exact why_ne_opening _
         · rcases List.mem_cons.mp h1 with h2 | h2
           · rw [h2]
             exact what_ne_opening _
           · simp at h2)

theorem ctx_opening_cases (story : Str) (e : StoryElements) (R : GenR) (used : List Str)
    (q : Question) (used1 : List Str)
    (h : createContextualQuestion story e R used = (some q, used1)) :
    (q.question = openingQuestionText ∧ lowerStr (ctxPhrase e) ∉ used ∧
      lowerStr (ctxPhrase e) ∈ used1) ∨
    (q.question ≠ openingQuestionText ∧ used1 = used) := by
  simp only [createContextualQuestion] at h
  split at h
  · next hcond =>
    left
    simp only [Prod.mk.injEq, Option.some.injEq] at h
    refine ⟨by rw [← h.1], hcond.2.2, ?_⟩
    rw [← h.2]
    exact setInsert_mem _ _
  · split at h
    · right
      simp only [Prod.mk.injEq, Option.some.injEq] at h
      refine ⟨?_, h.2.symm⟩
      rw [← h.1]
      exact (by decide : lengthQuestionText ≠ openingQuestionText)
    · split at h
      · right
        simp only [Prod.mk.injEq, Option.some.injEq] at h
        refine ⟨?_, h.2.symm⟩
        rw [← h.1]
        exact (by decide :
          ("Which of these is NOT mentioned in the story?").data ≠ openingQuestionText)
      · right
        simp only [Prod.mk.injEq, Option.some.injEq] at h
        refine ⟨?_, h.2.symm⟩
        rw [← h.1]
        exact (by decide :
          ("True or False: The story included a surprising event.").data ≠
            openingQuestionText)

theorem countOpening_append (qs : List Question) (q : Question) :
    countOpening (qs ++ [q]) =
      countOpening qs + (if q.question = openingQuestionText then 1 else 0) := by
  rw [countOpening, countOpening, List.filter_append, List.length_append]
  congr 1
  by_cases h : q.question = openingQuestionText
  · simp [List.filter_cons, h]
  · simp [List.filter_cons, h]

theorem countOpening_sublist {l1 l2 : List Question} (h : l1.Sublist l2) :
    countOpening l1 ≤ countOpening l2 :=
  (h.filter _).length_le

theorem cleanup_preserves_question (q : Question) :
    (cleanupQuestion q).question = q.question := by
  simp only [cleanupQuestion]
  split
  · split <;> rfl
  · rfl

theorem countOpening_map_cleanup (l : List Question) :
    countOpening (l.map cleanupQuestion) = countOpening l := by
  induction l with
  | nil => rfl
  | cons q t ih =>
    simp only [List.map_cons, countOpening, List.filter_cons, cleanup_preserves_question]
      at ih ⊢
    by_cases h : (q.question == openingQuestionText) = true
    · rw [if_pos h, if_pos h]
      simp only [List.length_cons, ih]
    · rw [if_neg h, if_neg h, ih]

theorem bankFold_opening (story : Str) (e : StoryElements) (R : GuqR) (n : Nat) :
    ∀ (gens : List GenId) (qs : List Question) (used : List Str),
      countOpening qs = 0 →
      countOpening (bankFold story e R n gens (qs, used)).1 = 0 := by
  intro gens
  induction gens with
  | nil => intro qs used h; exact h
  | cons g gs ih =>
    intro qs used h
    rw [bankFold]
    by_cases hstop : n ≤ qs.length
    · rw [if_pos hstop]
      exact h
    · rw [if_neg hstop]
      cases hg : runGen g story e (R.genR g) used with
      | error _ => exact ih qs used h
      | ok res =>
        cases res with
        | mk qopt used1 =>
          cases qopt with
          | none => exact ih qs used1 h
          | some q =>
            apply ih
            rw [countOpening_append, h,
              if_neg (runGen_no_opening g story e (R.genR g) used used1 q hg)]

theorem fillCtx_opening (story : Str) (e : StoryElements) (R : GuqR) (n : Nat) :
    ∀ (fuel i : Nat) (qs : List Question) (used : List Str),
      countOpening qs ≤ 1 →
      (1 ≤ countOpening qs → lowerStr (ctxPhrase e) ∈ used) →
      countOpening (fillCtx story e R n i fuel (qs, used)).1 ≤ 1 := by
  intro fuel
  induction fuel with
  | zero =>
    intro i qs used h1 _
    exact h1
  | succ fuel ih =>
    intro i qs used h1 h2
    rw [fillCtx]
    by_cases hstop : n ≤ qs.length
    · rw [if_pos hstop]
      exact h1
    · rw [if_neg hstop]
      cases hctx : createContextualQuestion story e (R.ctxR i) used with
      | mk qopt used1 =>
        cases qopt with
        | none => exact h1
        | some q =>
          rcases ctx_opening_cases story e (R.ctxR i) used q used1 hctx with
            ⟨hop, hnotin, hin⟩ | ⟨hnot, hused⟩
          · have hc0 : countOpening qs = 0 := by
              by_contra hc
              exact hnotin (h2 (by omega))
            apply ih
            · rw [countOpening_append, hc0, if_pos hop]
            · intro _
              exact hin
          · apply ih
            · rw [countOpening_append, if_neg hnot]
              omega
            · intro hcount
              rw [countOpening_append, if_neg hnot] at hcount
              rw [hused]
              exact h2 (by omega)

/-- Claim C6 (amended): the strategies that consult the used-elements set
(name, action, object, place, and the contextual opening-phrase branch)
never reuse an element already recorded, so in particular at most one
opening-phrase question appears per call; but the contextual length,
not-mentioned and generic true/false branches record nothing, so when the
bank under-produces, the same fallback question (and hence the same fact)
can appear more than once in one call. -/
theorem claim_C6_used_elements (story : Str) (e : StoryElements) (R : GuqR) (n : Nat) :
    countOpening (generateUniqueQuestions story e R n) ≤ 1 := by
  unfold generateUniqueQuestions
  rcases hst : bankFold story e R n (shuffleTape R.bankShuffle bankList) ([], []) with
    ⟨qs1, used1⟩
  have hb : countOpening qs1 = 0 := by
    have hb0 := bankFold_opening story e R n (shuffleTape R.bankShuffle bankList) [] [] rfl
    rw [hst] at hb0
    exact hb0
  have hf := fillCtx_opening story e R n n 0 qs1 used1 (by omega)
    (fun hc => absurd hc (by omega))
  rcases hst2 : fillCtx story e R n 0 n (qs1, used1) with ⟨qs2, used2⟩
  have hf2 : countOpening qs2 ≤ 1 := by
    rw [hst2] at hf
    exact hf
  show countOpening (List.take n (List.map cleanupQuestion
    (List.take n (fillCtx story e R n 0 n (qs1, used1)).1))) ≤ 1
  rw [hst2]
  show countOpening (List.take n (List.map cleanupQuestion (List.take n qs2))) ≤ 1
  calc countOpening (List.take n (List.map cleanupQuestion (List.take n qs2)))
      ≤ countOpening (List.map cleanupQuestion (List.take n qs2)) :=
        countOpening_sublist (List.take_sublist _ _)
    _ = countOpening (List.take n qs2) := countOpening_map_cleanup _
    _ ≤ countOpening qs2 := countOpening_sublist (List.take_sublist _ _)
    _ ≤ 1 := hf2

/-- Counterexample to C6 as stated: on a 41-word story with no extractable
elements and a target of 4 questions (the leveled game reaches
`num_questions_per_round = 4` at level 5), the call returns the
length-estimate question twice — two records testing the same fact, at
positions 2 and 3, and in fact equal as records. -/
theorem claim_C6_counterexample :
    (generateUniqueQuestions cexStory cexElems defaultGuqR 4)[2]? ≠ none ∧
    (generateUniqueQuestions cexStory cexElems defaultGuqR 4)[2]? =
      (generateUniqueQuestions cexStory cexElems defaultGuqR 4)[3]? ∧
    ((generateUniqueQuestions cexStory cexElems defaultGuqR 4)[2]?.map
      (fun q => q.question)) = some lengthQuestionText := by
  refine ⟨by decide, by decide, by decide⟩
